import Mathlib

/-!
Verification of the dsadmin query-construction and join-resolution engine.

The TypeScript source is embedded shallowly: JS strings become `String`,
JS arrays become `List`, thrown errors become `Except String`, and JS
numbers (used only for finite decimal literals here) become exact decimals
(`JsNum`, a mantissa/scale pair).  Functions keep their source names.
-/

namespace DsAdmin

/-! ## Decimal digit strings -/

/-- The little-endian base-10 digits of `n`, with explicit fuel so that the
definition is structurally recursive and kernel-reducible. -/
def digitsFuel : Nat → Nat → List Nat
  | 0, _ => []
  | _ + 1, 0 => []
  | f + 1, n + 1 => (n + 1) % 10 :: digitsFuel f ((n + 1) / 10)

/-- Value of a little-endian base-10 digit list. -/
def ofDigitsM : List Nat → Nat
  | [] => 0
  | d :: t => d + 10 * ofDigitsM t

/-- The character for one decimal digit. -/
def digitChar : Nat → Char
  | 0 => '0' | 1 => '1' | 2 => '2' | 3 => '3' | 4 => '4'
  | 5 => '5' | 6 => '6' | 7 => '7' | 8 => '8' | _ => '9'

/-- Numeric value of a digit character. -/
def charVal (c : Char) : Nat := c.toNat - 48

/-- Decimal rendering of a natural number, most significant digit first. -/
def natToChars (n : Nat) : List Char :=
  if n = 0 then ['0'] else ((digitsFuel n n).map digitChar).reverse

/-- Value of a most-significant-first digit character list. -/
def charsVal (l : List Char) : Nat := ofDigitsM ((l.map charVal).reverse)

/-! ## takeWhile/dropWhile over a rendered prefix -/

/-! ## Reading natural numbers and integers off a character list -/

/-- Read a nonempty run of leading digits as a natural number; return the rest. -/
def readNat (l : List Char) : Option (Nat × List Char) :=
  let ds := l.takeWhile Char.isDigit
  if ds.isEmpty then none else some (charsVal ds, l.dropWhile Char.isDigit)

/-- Decimal rendering of an integer. -/
def intToChars (i : Int) : List Char :=
  (if i < 0 then ['-'] else []) ++ natToChars i.natAbs

/-- Read an optionally-negated decimal integer. -/
def readInt (l : List Char) : Option (Int × List Char) :=
  if l.head? = some '-' then (readNat l.tail).map (fun p => (-(p.1 : Int), p.2))
  else (readNat l).map (fun p => ((p.1 : Int), p.2))

/-! ## JS numbers as exact decimals

A JS number value that arises from parsing a finite decimal literal is
modelled exactly as a mantissa/scale pair denoting `m / 10 ^ s`. -/

structure JsNum where
  m : Int
  s : Nat
deriving DecidableEq, Repr

/-- Digits of the fractional part, left-padded with zeros to width `s`. -/
def fracChars (s fr : Nat) : List Char :=
  List.replicate (s - (natToChars fr).length) '0' ++ natToChars fr

/-- Decimal rendering of a `JsNum`, mirroring JS number-to-string conversion
on finite decimals. -/
def printJsNum (x : JsNum) : List Char :=
  (if x.m < 0 then ['-'] else []) ++ natToChars (x.m.natAbs / 10 ^ x.s)
    ++ (if x.s = 0 then [] else '.' :: fracChars x.s (x.m.natAbs % 10 ^ x.s))

def jsNumToString (x : JsNum) : String := ⟨printJsNum x⟩

/-- Strip trailing fractional zeros, as JS canonical number printing does. -/
def canonAux : Int → Nat → JsNum
  | m, 0 => ⟨m, 0⟩
  | m, s + 1 => if m % 10 = 0 then canonAux (m / 10) s else ⟨m, s + 1⟩

/-- Sign of a parsed number. -/
def applySign (neg : Bool) (n : Nat) : Int := if neg then -(n : Int) else n

/-- Model of the JS `Number(string)` conversion on the decimal fragment used by
the query builder: the empty string converts to `0`; an optional sign followed
by digits, with an optional fractional part, converts to the denoted decimal;
anything else is NaN (`none`). -/
def jsNumber (l : List Char) : Option JsNum :=
  if l.isEmpty then some ⟨0, 0⟩ else
  let (neg, l1) :=
    match l with
    | '-' :: r => (true, r)
    | '+' :: r => (false, r)
    | l => (false, l)
  let ds := l1.takeWhile Char.isDigit
  let l2 := l1.dropWhile Char.isDigit
  match l2 with
  | [] => if ds.isEmpty then none else some (canonAux (applySign neg (charsVal ds)) 0)
  | '.' :: r =>
    let fs := r.takeWhile Char.isDigit
    let l3 := r.dropWhile Char.isDigit
    if !l3.isEmpty then none
    else if ds.isEmpty && fs.isEmpty then none
    else some (canonAux (applySign neg (charsVal ds * 10 ^ fs.length + charsVal fs)) fs.length)
  | _ => none

def jsNumberOfString (s : String) : Option JsNum := jsNumber s.data

/-- Rational value denoted by a `JsNum`. -/
def JsNum.toRat (x : JsNum) : ℚ := (x.m : ℚ) / (10 ^ x.s : ℚ)

/-! ## JS string primitives -/

/-- The JS `String.trim()`: strip leading and trailing whitespace. -/
def trimC (l : List Char) : List Char :=
  ((l.dropWhile Char.isWhitespace).reverse.dropWhile Char.isWhitespace).reverse

def jsTrim (s : String) : String := ⟨trimC s.data⟩

/-- ASCII lowercasing of one character. -/
def asciiLower (c : Char) : Char :=
  if 'A' ≤ c ∧ c ≤ 'Z' then Char.ofNat (c.toNat + 32) else c

/-- The JS `String.toLowerCase()` (on the ASCII fragment used here). -/
def jsToLower (s : String) : String := ⟨s.data.map asciiLower⟩

/-! ## QueryBuilderPage: types (src/QueryBuilderPage.tsx lines 15-46) -/

inductive ValueType where
  | string | integer | double | boolean | null | timestamp | key
  | blob | geoPoint | array | entity | raw
deriving DecidableEq, Repr

inductive WhereOperator where
  | eq | ne | gt | ge | lt | le | inOp | hasAncestor
deriving DecidableEq, Repr

def opToString : WhereOperator → String
  | .eq => "=" | .ne => "!=" | .gt => ">" | .ge => ">="
  | .lt => "<" | .le => "<=" | .inOp => "IN" | .hasAncestor => "HAS ANCESTOR"

inductive SortDirection where
  | asc | desc
deriving DecidableEq, Repr

def sortToString : SortDirection → String
  | .asc => "ASC" | .desc => "DESC"

structure WhereClause where
  id : Nat
  field : String
  operator : WhereOperator
  value : String
  valueType : ValueType
deriving DecidableEq, Repr

/-! ## QueryBuilderPage: escaping and literal building (lines 48-217) -/

/-- Replace every occurrence of the character `t` by the string `r`
(the JS `String.replace` with a global single-character regex). -/
def replaceAllC (t : Char) (r : List Char) : List Char → List Char
  | [] => []
  | c :: rest => (if c = t then r else [c]) ++ replaceAllC t r rest

/-- `escapeString` (line 48): double every backslash, then escape every
single quote. -/
def escapeString (s : String) : String :=
  ⟨replaceAllC '\'' ['\\', '\''] (replaceAllC '\\' ['\\', '\\'] s.data)⟩

/-- `escapeDoubleQuoted` (line 52): double every backslash, then escape every
double quote. -/
def escapeDoubleQuoted (s : String) : String :=
  ⟨replaceAllC '"' ['\\', '"'] (replaceAllC '\\' ['\\', '\\'] s.data)⟩

/-- The regex test `/^-?\d+$/`. -/
def isIntegerLit (l : List Char) : Bool :=
  match l with
  | '-' :: r => !r.isEmpty && r.all Char.isDigit
  | l => !l.isEmpty && l.all Char.isDigit

/-- The regex test `/^key\s*\(/i`. -/
def isKeyLit (l : List Char) : Bool :=
  match l with
  | k :: e :: y :: rest =>
    (k = 'k' || k = 'K') && (e = 'e' || e = 'E') && (y = 'y' || y = 'Y') &&
      (match rest.dropWhile Char.isWhitespace with
       | '(' :: _ => true
       | _ => false)
  | _ => false

/-- The JS `String.split(",")`: split at every comma, never empty. -/
def splitCommaC : List Char → List (List Char)
  | [] => [[]]
  | c :: r =>
    if c = ',' then [] :: splitCommaC r
    else
      match splitCommaC r with
      | [] => [[c]]
      | h :: t => (c :: h) :: t

def splitComma (s : String) : List String := (splitCommaC s.data).map (fun l => ⟨l⟩)

/-- Error messages in the source interpolate the offending field between
double quotes; every message is built through this helper. -/
def fieldErr (pre f post : String) : String := pre ++ "\"" ++ f ++ "\"" ++ post

/-- `parseWhereValue` (lines 105-171): per-declared-type validation and
escaping of one clause value, producing a GQL literal. -/
def parseWhereValue (clause : WhereClause) : Except String String :=
  let trimmedValue := jsTrim clause.value
  match clause.valueType with
  | .string => .ok ("'" ++ escapeString clause.value ++ "'")
  | .integer =>
    if isIntegerLit trimmedValue.data then .ok trimmedValue
    else .error (fieldErr "Integer field " clause.field " has an invalid integer value.")
  | .double =>
    match jsNumberOfString trimmedValue with
    | some parsed => .ok (jsNumToString parsed)
    | none => .error (fieldErr "Double field " clause.field " has an invalid number.")
  | .boolean =>
    let normalized := jsToLower trimmedValue
    if normalized = "true" ∨ normalized = "false" then .ok normalized
    else .error (fieldErr "Boolean field " clause.field " must be true or false.")
  | .null => .ok "NULL"
  | .timestamp =>
    if trimmedValue = "" then
      .error (fieldErr "Timestamp field " clause.field " requires a value.")
    else .ok ("DATETIME(\"" ++ escapeDoubleQuoted trimmedValue ++ "\")")
  | .key =>
    if isKeyLit trimmedValue.data then .ok trimmedValue
    else .error (fieldErr "Key field " clause.field " must use a KEY(...) literal.")
  | .blob =>
    if trimmedValue = "" then
      .error (fieldErr "Blob field " clause.field " requires a base64 value.")
    else .ok ("BLOB(\"" ++ escapeDoubleQuoted trimmedValue ++ "\")")
  | .geoPoint =>
    match (splitComma trimmedValue).map jsTrim with
    | latRaw :: lngRaw :: _ =>
      match jsNumberOfString latRaw, jsNumberOfString lngRaw with
      | some latitude, some longitude =>
        .ok ("GEOPT(" ++ jsNumToString latitude ++ ", " ++ jsNumToString longitude ++ ")")
      | _, _ =>
        .error (fieldErr "GeoPoint field " clause.field " must be in \"lat,lng\" format.")
    | _ => .error (fieldErr "GeoPoint field " clause.field " must be in \"lat,lng\" format.")
  | .array =>
    if trimmedValue = "" then
      .error (fieldErr "Field " clause.field " requires a literal value.")
    else .ok trimmedValue
  | .entity =>
    if trimmedValue = "" then
      .error (fieldErr "Field " clause.field " requires a literal value.")
    else .ok trimmedValue
  | .raw =>
    if trimmedValue = "" then
      .error (fieldErr "Field " clause.field " requires a literal value.")
    else .ok trimmedValue

/-- `splitInValues` (line 173). -/
def splitInValues (value : String) : List String :=
  ((splitComma value).map jsTrim).filter (fun v => v.length > 0)

/-- `buildWhereClause` (lines 180-207). -/
def buildWhereClause (clause : WhereClause) : Except String String :=
  if clause.operator = .hasAncestor then
    (parseWhereValue { clause with valueType := .key }).map
      (fun keyLiteral => "__key__ HAS ANCESTOR " ++ keyLiteral)
  else if clause.operator = .inOp then
    if clause.valueType = .null then
      .error (fieldErr "IN does not support NULL type for " clause.field
        ". Use Raw type instead.")
    else
      let values := splitInValues clause.value
      if values.isEmpty then
        .error (fieldErr "IN filter for " clause.field " requires comma-separated values.")
      else
        (values.mapM (fun value => parseWhereValue { clause with value := value })).map
          (fun parsedValues =>
            clause.field ++ " IN ARRAY(" ++ String.intercalate ", " parsedValues ++ ")")
  else
    (parseWhereValue clause).map
      (fun lit => clause.field ++ " " ++ opToString clause.operator ++ " " ++ lit)

/-- `buildQuery` (lines 209-217). -/
def buildQuery (kind : String) (clauses : List WhereClause) (orderField : String)
    (orderDirection : SortDirection) : Except String String :=
  ((clauses.filter (fun c => !(jsTrim c.field == ""))).mapM buildWhereClause).map
    (fun whereClauses =>
      let wherePart :=
        if whereClauses.isEmpty then ""
        else " WHERE " ++ String.intercalate " AND " whereClauses
      let orderPart :=
        if jsTrim orderField == "" then ""
        else " ORDER BY " ++ orderField ++ " " ++ sortToString orderDirection
      "SELECT * FROM " ++ kind ++ wherePart ++ orderPart)

/-- The cap-violation message thrown by `expandInClauses` (the spec's
`TooManyCombinations` error). -/
def tooManyCombinationsMsg : String :=
  "Too many IN combinations. Reduce the number of IN values."

/-- The cartesian-expansion loop inside `expandInClauses` (lines 228-247). -/
def expandLoop : List WhereClause → List (List WhereClause) →
    Except String (List (List WhereClause))
  | [], combinations => .ok combinations
  | clause :: rest, combinations =>
    let values := splitInValues clause.value
    if values.isEmpty then
      .error (fieldErr "IN filter for " clause.field " requires comma-separated values.")
    else
      expandLoop rest
        (combinations.flatMap (fun combo =>
          values.map (fun value => combo ++ [{ clause with operator := .eq, value := value }])))

/-- The IN-clauses considered by `expandInClauses` (non-empty trimmed field,
operator `IN`; lines 220-222). -/
def inClausesOf (clauses : List WhereClause) : List WhereClause :=
  clauses.filter (fun c => !(jsTrim c.field == "") && c.operator == .inOp)

/-- The non-IN clauses kept by `expandInClauses` (lines 223-225). -/
def baseClausesOf (clauses : List WhereClause) : List WhereClause :=
  clauses.filter (fun c => !(jsTrim c.field == "") && !(c.operator == .inOp))

/-- `expandInClauses` (lines 219-254). -/
def expandInClauses (clauses : List WhereClause) :
    Except String (List (List WhereClause)) :=
  match expandLoop (inClausesOf clauses) [baseClausesOf clauses] with
  | .error e => .error e
  | .ok combinations =>
    if combinations.length > 50 then .error tooManyCombinationsMsg
    else .ok combinations

/-- The comma-split value count of each considered IN-clause, in order. -/
def inValueCounts (clauses : List WhereClause) : List Nat :=
  (inClausesOf clauses).map (fun c => (splitInValues c.value).length)

/-- The `=`-clause that the expansion substitutes for an IN-clause and one of
its values (lines 236-243). -/
def mkEqClause (clause : WhereClause) (value : String) : WhereClause :=
  { clause with operator := .eq, value := value }

/-! ## Un-escaping single-quoted literals (the inverse of the rules of
`escapeString`, for the round-trip property) -/

/-- Un-escape by the same rules `escapeString` escapes with: a backslash
takes the following character literally. -/
def unescapeChars : List Char → List Char
  | '\\' :: c :: rest => c :: unescapeChars rest
  | c :: rest => c :: unescapeChars rest
  | [] => []

/-- Strip the surrounding single quotes off a string literal and un-escape
its body. -/
def unescapeStringLiteral (s : String) : Option String :=
  match s.data with
  | '\'' :: rest =>
    if rest.getLast? = some '\'' then some ⟨unescapeChars rest.dropLast⟩ else none
  | _ => none


/-! ## Data model: keys, property values, entities (src/api wire model) -/

inductive PathId where
  | id (i : Int)
  | name (s : String)
deriving DecidableEq, Repr

structure PathSegment where
  kind : String
  ref : PathId
deriving DecidableEq, Repr

structure Key where
  projectId : String
  namespaceId : Option String
  path : List PathSegment
deriving DecidableEq, Repr

/-- The tagged-union property value of the wire model: exactly one tag per
instance.  String-encoded 64-bit integers are carried as `Int`; JS doubles as
exact decimals (`JsNum`); blobs stay in their base64 string form. -/
inductive PropertyValue where
  | nullValue
  | booleanValue (b : Bool)
  | integerValue (i : Int)
  | doubleValue (d : JsNum)
  | timestampValue (s : String)
  | stringValue (s : String)
  | blobValue (s : String)
  | geoPointValue (latitude longitude : Option JsNum)
  | keyValue (k : Key)
  | arrayValue (values : Option (List PropertyValue))
  | entityValue (properties : List (String × PropertyValue))
deriving Repr

/-- A row: key plus an optional property record (a JS object, modelled as an
insertion-ordered association list). -/
structure Entity where
  key : Key
  properties : Option (List (String × PropertyValue))
deriving Repr

/-- JS property read `props[name]`: first matching entry. -/
def getProp (props : List (String × PropertyValue)) (name : String) :
    Option PropertyValue :=
  (props.find? (fun kv => kv.1 == name)).map (fun kv => kv.2)

/-- JS property write `props[name] = v`: update in place or append. -/
def setProp : List (String × PropertyValue) → String → PropertyValue →
    List (String × PropertyValue)
  | [], name, v => [(name, v)]
  | (k, w) :: rest, name, v =>
    if k = name then (name, v) :: rest else (k, w) :: setProp rest name v

/-! ## Aggregation evaluator (src/QueryBuilderPage.tsx lines 56-103) -/

inductive Aggregation where
  | none | count | sum | avg | min | max
deriving DecidableEq, Repr

/-- `getNumberValue` (line 56): coerce integer/double tags to a number,
anything else to null.  (The JS `Number(integerValue)` conversion of the
string-encoded integer is the integer itself, and is always finite here.) -/
def getNumberValue (v : PropertyValue) : Option ℚ :=
  match v with
  | .integerValue i => some (i : ℚ)
  | .doubleValue d => some d.toRat
  | _ => none

/-- The numeric subset collected by the aggregation loop (lines 78-88): read
the named property of each row, keep coercible values, skip everything else. -/
def numericValues (entities : List Entity) (field : String) : List ℚ :=
  entities.filterMap (fun e =>
    match e.properties with
    | none => none
    | some props => (getProp props field).bind getNumberValue)

/-- `Math.min(...values)` on a non-empty list. -/
def listMinQ : List ℚ → ℚ
  | [] => 0
  | h :: t => t.foldl min h

/-- `Math.max(...values)` on a non-empty list. -/
def listMaxQ : List ℚ → ℚ
  | [] => 0
  | h :: t => t.foldl max h

/-- `calculateAggregation` (lines 66-103). -/
def calculateAggregation (aggregation : Aggregation) (entities : Option (List Entity))
    (field : String) : Option ℚ :=
  match entities with
  | .none => .none
  | some es =>
    if aggregation = .none then .none
    else if aggregation = .count then some (es.length : ℚ)
    else
      let values := numericValues es field
      if values.isEmpty then .none
      else if aggregation = .sum then some (values.foldl (· + ·) 0)
      else if aggregation = .avg then some (values.foldl (· + ·) 0 / (values.length : ℚ))
      else if aggregation = .min then some (listMinQ values)
      else some (listMaxQ values)

/-! ## Join resolver (src/unnamed/part_000, QueryPage with joins) -/

/-- `parseJoinProperties` (lines 37-42). -/
def parseJoinProperties (joinProperty : String) : List String :=
  ((splitComma joinProperty).map jsTrim).filter (fun p => p.length > 0)

/-- The key reference held by a row's property, if any: the
`val && "keyValue" in val` test of the source (lines 303-307). -/
def keyAt (e : Entity) (prop : String) : Option Key :=
  match e.properties with
  | .none => .none
  | some props =>
    match getProp props prop with
    | some (.keyValue k) => some k
    | _ => .none

/-- `keysToJoin` (lines 297-310): collect, row by row and configured property
by configured property, every key reference into the lookup request. -/
def keysToJoin (queryResults : Option (List Entity)) (joinProperties : List String) :
    List Key :=
  match queryResults with
  | .none => []
  | some results =>
    if joinProperties.isEmpty then []
    else results.flatMap (fun e => joinProperties.filterMap (keyAt e))

/-- Modelled from the spec: `keyToString` lives in `src/keys.ts`, which is not
in the repository snapshot (only its callers are).  Spec §4.5 requires a fixed
deterministic canonical key string, built from the project id, the namespace
(present only if non-default), and the ordered path, order-sensitive,
collision-free, and disambiguating numeric ids from string names by tagging.
This model renders quoted components (backslash-escaped), with `#` tagging
numeric ids and `@` tagging string names; the viewer's project/namespace
display arguments do not affect the canonical form. -/
def qescChar : List Char → List Char
  | [] => []
  | c :: rest => (if c = '\\' ∨ c = '"' then ['\\', c] else [c]) ++ qescChar rest

def printQuoted (l : List Char) : List Char := '"' :: qescChar l ++ ['"']

def printSeg (s : PathSegment) : List Char :=
  '/' :: printQuoted s.kind.data
    ++ (match s.ref with
        | .id i => '#' :: intToChars i
        | .name n => '@' :: printQuoted n.data)

def printSegs : List PathSegment → List Char
  | [] => []
  | s :: t => printSeg s ++ printSegs t

def printKey (k : Key) : List Char :=
  'P' :: printQuoted k.projectId.data
    ++ (match k.namespaceId with
        | .none => []
        | some ns => 'N' :: printQuoted ns.data)
    ++ printSegs k.path

/-- Modelled from the spec: the canonical key string of §4.5 (see `printKey`).
Signature follows the source call sites `keyToString(key, project, namespace)`. -/
def keyToString (key : Key) (project : String) (nspace : Option String) : String :=
  ⟨printKey key⟩

/-- `Map.get` over the canonical-key index. -/
def mapGet (m : List (String × Entity)) (k : String) : Option Entity :=
  (m.find? (fun kv => kv.1 == k)).map (fun kv => kv.2)

/-- `Map.set`: overwrite in place or append. -/
def setEntry : List (String × Entity) → String → Entity → List (String × Entity)
  | [], name, v => [(name, v)]
  | (k, w) :: rest, name, v =>
    if k = name then (name, v) :: rest else (k, w) :: setEntry rest name v

/-- The canonical-key index of the fetched rows (lines 319-324). -/
def entityMapOf (joined : List Entity) (project : String) (nspace : Option String) :
    List (String × Entity) :=
  joined.foldl (fun m e => setEntry m (keyToString e.key project nspace) e) []

/-- One successful join for one configured property of one row: the property
holds a key whose canonical string resolves in the fetched-row index
(lines 330-341). -/
def joinHit (e : Entity) (entityMap : List (String × Entity)) (project : String)
    (nspace : Option String) (prop : String) : Option Entity :=
  match keyAt e prop with
  | some k => mapGet entityMap (keyToString k project nspace)
  | .none => .none

/-- One iteration of the inner `for (const prop of joinProperties)` loop of
`finalEntities` (lines 330-342): on a hit, write `<prop>_joined` into the
accumulated property record and set the modified flag. -/
def mergeStep (e : Entity) (entityMap : List (String × Entity)) (project : String)
    (nspace : Option String) (acc : List (String × PropertyValue) × Bool)
    (prop : String) : List (String × PropertyValue) × Bool :=
  match joinHit e entityMap project nspace prop with
  | some joined =>
    (setProp acc.1 (prop ++ "_joined") (.entityValue (joined.properties.getD [])), true)
  | .none => acc

/-- The body of `queryResults.map(...)` in `finalEntities` (lines 326-348):
fold the configured properties over a copy of the row's properties, adding
`<prop>_joined` for each hit; return the row unchanged when nothing hit. -/
def mergeRow (joinProperties : List String) (entityMap : List (String × Entity))
    (project : String) (nspace : Option String) (e : Entity) : Entity :=
  let r := joinProperties.foldl (mergeStep e entityMap project nspace)
    (e.properties.getD [], false)
  if r.2 then { e with properties := some r.1 } else e

/-- `finalEntities` (lines 315-349). -/
def finalEntities (queryResults joinedEntities : Option (List Entity))
    (joinProperties : List String) (project : String) (nspace : Option String) :
    List Entity :=
  match queryResults with
  | .none => []
  | some results =>
    if joinProperties.isEmpty then results
    else
      match joinedEntities with
      | .none => results
      | some joined =>
        results.map (mergeRow joinProperties (entityMapOf joined project nspace)
          project nspace)

/-! ## The editable-value model (spec §4.1)

Modelled from the spec: `src/properties.ts` (the `valueToEditValue` /
`valueFromEditValue` pair exercised by `src/properties.test.ts`) is not in
the repository snapshot — only its round-trip test is.  Following the test's
signatures, an edit value carries one variant per property-value tag with the
variant's textual editable form (numbers as-is, timestamps as ISO strings,
keys via the canonical key string of §4.5, blobs as base64, geo points as
`"lat,lng"` with each slot independently optional, arrays recursively);
entities are not editable, so encoding an entity (or an array containing
one) is undefined. -/

/-- Exact parse of a non-negative decimal with optional fractional part:
the inverse of `printJsNum` on sign-free renderings. -/
def parseJsPos (l : List Char) : Option JsNum :=
  let ds := l.takeWhile Char.isDigit
  let l2 := l.dropWhile Char.isDigit
  if ds.isEmpty then none
  else
    match l2 with
    | [] => some ⟨(charsVal ds : Int), 0⟩
    | '.' :: r =>
      let fs := r.takeWhile Char.isDigit
      if fs.isEmpty then none
      else if !(r.dropWhile Char.isDigit).isEmpty then none
      else some ⟨((charsVal ds * 10 ^ fs.length + charsVal fs : Nat) : Int), fs.length⟩
    | _ => none

/-- Exact parse of a decimal rendering, the inverse of `printJsNum`. -/
def parseJsNumExact (l : List Char) : Option JsNum :=
  if l.head? = some '-' then (parseJsPos l.tail).map (fun x => ⟨-x.m, x.s⟩)
  else parseJsPos l

/-- Exact parse of a full-string integer rendering. -/
def parseIntChars (l : List Char) : Option Int :=
  match readInt l with
  | some (i, []) => some i
  | _ => none

/-- One optional slot of a geo-point edit string. -/
def printOptNum : Option JsNum → List Char
  | .none => []
  | some x => printJsNum x

/-- Parse one optional slot of a geo-point edit string: empty means absent. -/
def parseOptNum (l : List Char) : Option (Option JsNum) :=
  if l.isEmpty then some .none else (parseJsNumExact l).map some

/-- Parse a `"lat,lng"` edit string back into its two optional slots. -/
def parseGeo (l : List Char) : Option (Option JsNum × Option JsNum) :=
  let a := l.takeWhile (fun c => !(c = ','))
  match l.dropWhile (fun c => !(c = ',')) with
  | ',' :: b =>
    match parseOptNum a, parseOptNum b with
    | some lat, some lng => some (lat, lng)
    | _, _ => none
  | _ => none

/-- Read the body of a quoted component up to its closing quote, undoing the
backslash escapes of `qescChar`; return the remainder. -/
def readQBody : List Char → Option (List Char × List Char)
  | [] => none
  | '\\' :: c :: r => (readQBody r).map (fun p => (c :: p.1, p.2))
  | '"' :: r => some ([], r)
  | c :: r => (readQBody r).map (fun p => (c :: p.1, p.2))

/-- Read one quoted component of a canonical key string. -/
def readQuoted : List Char → Option (List Char × List Char)
  | '"' :: r => readQBody r
  | _ => none

/-- Parse one tagged id-or-name part of a path segment. -/
def parseSegRef (l : List Char) : Option (PathId × List Char) :=
  match l with
  | '#' :: r3 => (readInt r3).map (fun p => (.id p.1, p.2))
  | '@' :: r3 => (readQuoted r3).map (fun p => (.name ⟨p.1⟩, p.2))
  | _ => none

/-- Parse the path segments of a canonical key string (fuel bounds the
number of segments). -/
def parseSegs : Nat → List Char → Option (List PathSegment)
  | _, [] => some []
  | 0, _ => none
  | fuel + 1, c :: r =>
    if c = '/' then
      (readQuoted r).bind (fun kd =>
        (parseSegRef kd.2).bind (fun rf =>
          (parseSegs fuel rf.2).map (fun segs => ⟨⟨kd.1⟩, rf.1⟩ :: segs)))
    else none

/-- Parse a canonical key string back into a `Key`: the inverse of
`printKey`. -/
def parseKeyChars (l : List Char) : Option Key :=
  match l with
  | c :: r =>
    if c = 'P' then
      (readQuoted r).bind (fun pr =>
        if pr.2.head? = some 'N' then
          (readQuoted pr.2.tail).bind (fun n2 =>
            (parseSegs n2.2.length n2.2).map (fun segs => ⟨⟨pr.1⟩, some ⟨n2.1⟩, segs⟩))
        else (parseSegs pr.2.length pr.2).map (fun segs => ⟨⟨pr.1⟩, .none, segs⟩))
    else none
  | [] => none

/-- The editable form of one property value, one variant per tag, arrays
recursive (entities have no editable form). -/
inductive EditValue where
  | string (s : String)
  | integer (s : String)
  | double (s : String)
  | boolean (s : String)
  | null
  | timestamp (s : String)
  | key (s : String)
  | blob (s : String)
  | geoPoint (s : String)
  | array (values : Option (List EditValue))

/-- Modelled from the spec (§4.1 `toEditString`, signatures from
`properties.test.ts`): encode a property value into its editable form;
undefined (`none`) on entities and anything containing one. -/
def valueToEditValue (v : PropertyValue) (project : String) (nspace : Option String) :
    Option EditValue :=
  match v with
  | .nullValue => some .null
  | .booleanValue b => some (.boolean (if b then "true" else "false"))
  | .integerValue i => some (.integer ⟨intToChars i⟩)
  | .doubleValue d => some (.double ⟨printJsNum d⟩)
  | .timestampValue s => some (.timestamp s)
  | .stringValue s => some (.string s)
  | .blobValue s => some (.blob s)
  | .geoPointValue lat lng => some (.geoPoint ⟨printOptNum lat ++ ',' :: printOptNum lng⟩)
  | .keyValue k => some (.key (keyToString k project nspace))
  | .arrayValue .none => some (.array .none)
  | .arrayValue (some vs) =>
    (valueToEditList vs project nspace).map (fun es => .array (some es))
  | .entityValue _ => none
where valueToEditList : List PropertyValue → String → Option String →
    Option (List EditValue)
  | [], _, _ => some []
  | v :: t, project, nspace =>
    match valueToEditValue v project nspace, valueToEditList t project nspace with
    | some e, some es => some (e :: es)
    | _, _ => none

/-- Modelled from the spec (§4.1 `fromEditString`): decode an editable form
back into a property value, failing on text that does not parse for the
variant. -/
def valueFromEditValue (e : EditValue) (project : String) (nspace : Option String) :
    Option PropertyValue :=
  match e with
  | .string s => some (.stringValue s)
  | .integer s => (parseIntChars s.data).map .integerValue
  | .double s => (parseJsNumExact s.data).map .doubleValue
  | .boolean s =>
    if s = "true" then some (.booleanValue true)
    else if s = "false" then some (.booleanValue false)
    else none
  | .null => some .nullValue
  | .timestamp s => some (.timestampValue s)
  | .key s => (parseKeyChars s.data).map .keyValue
  | .blob s => some (.blobValue s)
  | .geoPoint s => (parseGeo s.data).map (fun p => .geoPointValue p.1 p.2)
  | .array .none => some (.arrayValue .none)
  | .array (some es) =>
    (valueFromEditList es project nspace).map (fun vs => .arrayValue (some vs))
where valueFromEditList : List EditValue → String → Option String →
    Option (List PropertyValue)
  | [], _, _ => some []
  | e :: t, project, nspace =>
    match valueFromEditValue e project nspace, valueFromEditList t project nspace with
    | some v, some vs => some (v :: vs)
    | _, _ => none

/-- Example rows for C7: integer 10, double 4.5, and a row lacking the
field. -/
def aggRow1 : Entity := ⟨⟨"p", .none, [⟨"T", .id 1⟩]⟩, some [("x", .integerValue 10)]⟩

def aggRow2 : Entity := ⟨⟨"p", .none, [⟨"T", .id 2⟩]⟩, some [("x", .doubleValue ⟨45, 1⟩)]⟩

def aggRow3 : Entity := ⟨⟨"p", .none, [⟨"T", .id 3⟩]⟩, some [("y", .stringValue "no")]⟩

def aggRows : List Entity := [aggRow1, aggRow2, aggRow3]

/-- The id-or-name part of one printed segment, so that
`printSeg s = '/' :: printQuoted s.kind.data ++ printRef s.ref`. -/
def printRef : PathId → List Char
  | .id i => '#' :: intToChars i
  | .name n => '@' :: printQuoted n.data

/-- Example value for the C3 witness: an array mixing string, integer,
double, and key elements (the shapes of `properties.test.ts`). -/
def editExampleValue : PropertyValue :=
  .arrayValue (some [.stringValue "Value 1", .integerValue 42, .doubleValue ⟨42, 1⟩,
    .keyValue ⟨"project", .none, [⟨"Kind", .name "Entity"⟩]⟩])

/-- The editable form of `editExampleValue`. -/
def editExampleEdit : EditValue :=
  .array (some [.string "Value 1", .integer "42", .double "4.2",
    .key "P\"project\"/\"Kind\"@\"Entity\""])

/-! # Theorems -/

theorem digitsFuel_sound : ∀ f n, n ≤ f → ofDigitsM (digitsFuel f n) = n := by
  intro f
  induction f with
  | zero => intro n h; interval_cases n; rfl
  | succ f ih =>
    intro n h
    match n with
    | 0 => rfl
    | m + 1 =>
      have hdiv : (m + 1) / 10 ≤ f := by omega
      simp only [digitsFuel, ofDigitsM, ih _ hdiv]
      omega
theorem digitsFuel_lt10 : ∀ f n d, d ∈ digitsFuel f n → d < 10 := by
  intro f
  induction f with
  | zero => intro n d h; simp [digitsFuel] at h
  | succ f ih =>
    intro n d h
    match n with
    | 0 => simp [digitsFuel] at h
    | m + 1 =>
      simp only [digitsFuel, List.mem_cons] at h
      rcases h with h | h
      · omega
      · exact ih _ _ h
theorem charVal_digitChar {d : Nat} (h : d < 10) : charVal (digitChar d) = d := by
  interval_cases d <;> rfl
theorem digitChar_isDigit {d : Nat} (h : d < 10) : (digitChar d).isDigit = true := by
  interval_cases d <;> rfl
theorem charsVal_natToChars (n : Nat) : charsVal (natToChars n) = n := by
  by_cases h : n = 0
  · subst h; rfl
  · simp only [natToChars, if_neg h, charsVal, List.map_reverse, List.reverse_reverse,
      List.map_map]
    have h2 : (digitsFuel n n).map (charVal ∘ digitChar) = (digitsFuel n n).map id :=
      List.map_congr_left (fun d hd => by
        simp [Function.comp, charVal_digitChar (digitsFuel_lt10 _ _ _ hd)])
    rw [h2, List.map_id, digitsFuel_sound n n le_rfl]
theorem natToChars_all_digit (n : Nat) : ∀ c ∈ natToChars n, c.isDigit = true := by
  intro c hc
  by_cases h : n = 0
  · subst h; simp [natToChars] at hc; subst hc; rfl
  · simp only [natToChars, if_neg h, List.mem_reverse, List.mem_map] at hc
    obtain ⟨d, hd, rfl⟩ := hc
    exact digitChar_isDigit (digitsFuel_lt10 _ _ _ hd)
theorem natToChars_ne_nil (n : Nat) : natToChars n ≠ [] := by
  by_cases h : n = 0
  · subst h; simp [natToChars]
  · simp only [natToChars, if_neg h, ne_eq, List.reverse_eq_nil_iff, List.map_eq_nil_iff]
    match n, h with
    | m + 1, _ => simp [digitsFuel]
theorem takeWhile_append_all {α : Type} {p : α → Bool} {l1 l2 : List α}
    (h1 : ∀ c ∈ l1, p c = true) (h2 : ∀ c, l2.head? = some c → p c = false) :
    (l1 ++ l2).takeWhile p = l1 := by
  induction l1 with
  | nil =>
    simp only [List.nil_append]
    cases l2 with
    | nil => rfl
    | cons c t => simp [List.takeWhile_cons, h2 c rfl]
  | cons c t ih =>
    rw [List.cons_append, List.takeWhile_cons_of_pos (h1 c (by simp)),
      ih (fun x hx => h1 x (by simp [hx]))]
theorem dropWhile_append_all {α : Type} {p : α → Bool} {l1 l2 : List α}
    (h1 : ∀ c ∈ l1, p c = true) (h2 : ∀ c, l2.head? = some c → p c = false) :
    (l1 ++ l2).dropWhile p = l2 := by
  induction l1 with
  | nil =>
    simp only [List.nil_append]
    cases l2 with
    | nil => rfl
    | cons c t => simp [List.dropWhile_cons, h2 c rfl]
  | cons c t ih =>
    rw [List.cons_append, List.dropWhile_cons_of_pos (h1 c (by simp))]
    exact ih (fun x hx => h1 x (by simp [hx]))
theorem readNat_encode (n : Nat) (rest : List Char)
    (h : ∀ c, rest.head? = some c → c.isDigit = false) :
    readNat (natToChars n ++ rest) = some (n, rest) := by
  have htake := takeWhile_append_all (p := Char.isDigit) (natToChars_all_digit n) h
  have hdrop := dropWhile_append_all (p := Char.isDigit) (natToChars_all_digit n) h
  simp only [readNat, htake, hdrop, List.isEmpty_iff]
  rw [if_neg (natToChars_ne_nil n), charsVal_natToChars]
theorem head_natToChars_not_dash (n : Nat) (rest : List Char) :
    (natToChars n ++ rest).head? ≠ some '-' := by
  cases hne : natToChars n with
  | nil => exact absurd hne (natToChars_ne_nil n)
  | cons c t =>
    have hd : c.isDigit = true := natToChars_all_digit n c (by rw [hne]; simp)
    simp only [List.cons_append, List.head?_cons, ne_eq, Option.some.injEq]
    intro hc
    subst hc
    simp [Char.isDigit] at hd
theorem readInt_encode (i : Int) (rest : List Char)
    (h : ∀ c, rest.head? = some c → c.isDigit = false) :
    readInt (intToChars i ++ rest) = some (i, rest) := by
  by_cases hneg : i < 0
  · have habs : -((i.natAbs : Int)) = i := by omega
    simp only [intToChars, if_pos hneg, List.cons_append, List.nil_append, readInt,
      List.head?_cons, List.tail_cons, if_pos rfl, readNat_encode _ _ h,
      Option.map_some', habs]
    simp
  · have habs : ((i.natAbs : Int)) = i := by omega
    simp only [intToChars, if_neg hneg, List.nil_append, readInt]
    rw [if_neg (head_natToChars_not_dash _ _), readNat_encode _ _ h]
    simp only [Option.map_some', habs]

/-! # Claim theorems: query assembly -/

/-- C5: `buildQuery` skips clauses whose trimmed field is empty, renders the
remaining clauses in source-list order joined with " AND ", prefixes "WHERE"
only when at least one clause remains, and appends "ORDER BY <field> <dir>"
only when an order field is set; in particular the two concrete queries:
`SELECT * FROM Person WHERE age > 30 ORDER BY age DESC` and
`SELECT * FROM Person`. -/
theorem buildQuery_spec :
    (∀ kind clauses orderField orderDirection,
      buildQuery kind clauses orderField orderDirection
        = buildQuery kind (clauses.filter (fun c => !(jsTrim c.field == "")))
            orderField orderDirection)
    ∧ (∀ kind clauses orderField orderDirection whereClauses,
        (clauses.filter (fun c => !(jsTrim c.field == ""))).mapM buildWhereClause
            = Except.ok whereClauses →
        buildQuery kind clauses orderField orderDirection
          = Except.ok ("SELECT * FROM " ++ kind
              ++ (if whereClauses.isEmpty then ""
                  else " WHERE " ++ String.intercalate " AND " whereClauses)
              ++ (if jsTrim orderField == "" then ""
                  else " ORDER BY " ++ orderField ++ " " ++ sortToString orderDirection)))
    ∧ buildQuery "Person" [⟨0, "age", .gt, "30", .integer⟩] "age" .desc
        = .ok "SELECT * FROM Person WHERE age > 30 ORDER BY age DESC"
    ∧ buildQuery "Person" [] "" .asc = .ok "SELECT * FROM Person" := by
  refine ⟨?_, ?_, by rfl, by rfl⟩
  · intro kind clauses f d
    simp [buildQuery, List.filter_filter]
  · intro kind clauses f d ws h
    simp only [buildQuery]
    rw [h]
    rfl

/-- Witness for C5: the general shape applied at the concrete one-clause
query. -/
theorem buildQuery_spec_witness :
    ([(⟨0, "age", .gt, "30", .integer⟩ : WhereClause)].filter
        (fun c => !(jsTrim c.field == ""))).mapM buildWhereClause
      = Except.ok ["age > 30"]
    ∧ buildQuery "Person" [⟨0, "age", .gt, "30", .integer⟩] "age" .desc
      = Except.ok ("SELECT * FROM " ++ "Person"
          ++ (if (["age > 30"] : List String).isEmpty then ""
              else " WHERE " ++ String.intercalate " AND " ["age > 30"])
          ++ (if jsTrim "age" == "" then ""
              else " ORDER BY " ++ "age" ++ " " ++ sortToString .desc)) :=
  ⟨by rfl, buildQuery_spec.2.1 "Person" _ "age" .desc ["age > 30"] (by rfl)⟩

/-- C10: for every clause of declared type `double` whose raw text is empty or
whitespace-only, `parseWhereValue` returns the literal "0" without error,
because the JS `Number` conversion of the trimmed empty string is the finite
value 0. -/
theorem parseWhereValue_double_empty (clause : WhereClause)
    (ht : clause.valueType = .double) (hv : jsTrim clause.value = "") :
    parseWhereValue clause = .ok "0" := by
  simp [parseWhereValue, ht, hv, jsNumberOfString, jsNumber, jsNumToString]
  rfl

/-- Witness for C10 at the whitespace-only input "  ". -/
theorem parseWhereValue_double_empty_witness :
    (⟨0, "price", .eq, "  ", .double⟩ : WhereClause).valueType = .double
    ∧ jsTrim "  " = ""
    ∧ parseWhereValue ⟨0, "price", .eq, "  ", .double⟩ = .ok "0" :=
  ⟨rfl, rfl, parseWhereValue_double_empty ⟨0, "price", .eq, "  ", .double⟩ rfl rfl⟩

/-- C8: for every clause whose operator is HAS ANCESTOR, `buildWhereClause`
emits `__key__ HAS ANCESTOR <key-literal>` with the value validated as a key
literal, regardless of the clause's stored field and declared type; in
particular value `KEY(Org, 'acme')` yields
`__key__ HAS ANCESTOR KEY(Org, 'acme')`. -/
theorem buildWhereClause_hasAncestor (clause : WhereClause)
    (hop : clause.operator = .hasAncestor) :
    (isKeyLit (jsTrim clause.value).data = true →
      buildWhereClause clause = .ok ("__key__ HAS ANCESTOR " ++ jsTrim clause.value))
    ∧ (isKeyLit (jsTrim clause.value).data = false →
      buildWhereClause clause
        = .error (fieldErr "Key field " clause.field " must use a KEY(...) literal."))
    ∧ buildWhereClause ⟨0, "whatever", .hasAncestor, "KEY(Org, 'acme')", .string⟩
      = .ok "__key__ HAS ANCESTOR KEY(Org, 'acme')" := by
  refine ⟨?_, ?_, by rfl⟩ <;> intro h <;>
    simp [buildWhereClause, hop, parseWhereValue, h, Except.map]

/-- Witness for C8 at a clause whose stored field and type are not key-ish. -/
theorem buildWhereClause_hasAncestor_witness :
    (⟨0, "whatever", .hasAncestor, "KEY(Org, 'acme')", .string⟩
        : WhereClause).operator = .hasAncestor
    ∧ isKeyLit (jsTrim "KEY(Org, 'acme')").data = true
    ∧ buildWhereClause ⟨0, "whatever", .hasAncestor, "KEY(Org, 'acme')", .string⟩
      = .ok ("__key__ HAS ANCESTOR " ++ jsTrim "KEY(Org, 'acme')") :=
  ⟨rfl, rfl,
    (buildWhereClause_hasAncestor ⟨0, "whatever", .hasAncestor, "KEY(Org, 'acme')", .string⟩
      rfl).1 rfl⟩

theorem unescapeChars_cons_ne (c : Char) (rest : List Char) (h : ¬c = '\\') :
    unescapeChars (c :: rest) = c :: unescapeChars rest := by
  rw [unescapeChars.eq_def]
  split
  · rename_i c2 r2 heq
    rw [List.cons.injEq] at heq
    exact absurd heq.1 h
  · rename_i c2 r2 heq
    rw [List.cons.injEq] at heq
    rw [heq.1, heq.2]
  · rename_i heq
    exact absurd heq (by simp)

theorem unescapeChars_escape (l : List Char) :
    unescapeChars (replaceAllC '\'' ['\\', '\''] (replaceAllC '\\' ['\\', '\\'] l)) = l := by
  induction l with
  | nil => rfl
  | cons c t ih =>
    by_cases h1 : c = '\\'
    · subst h1
      show '\\' :: unescapeChars
          (replaceAllC '\'' ['\\', '\''] (replaceAllC '\\' ['\\', '\\'] t)) = '\\' :: t
      exact congrArg _ ih
    · by_cases h2 : c = '\''
      · subst h2
        show '\'' :: unescapeChars
            (replaceAllC '\'' ['\\', '\''] (replaceAllC '\\' ['\\', '\\'] t)) = '\'' :: t
        exact congrArg _ ih
      · have e1 : replaceAllC '\\' ['\\', '\\'] (c :: t)
            = c :: replaceAllC '\\' ['\\', '\\'] t := by
          simp [replaceAllC, h1]
        have e2 : replaceAllC '\'' ['\\', '\''] (c :: replaceAllC '\\' ['\\', '\\'] t)
            = c :: replaceAllC '\'' ['\\', '\''] (replaceAllC '\\' ['\\', '\\'] t) := by
          simp [replaceAllC, h2]
        rw [e1, e2, unescapeChars_cons_ne c _ h1, ih]

theorem string_mk_data (s : String) : (⟨s.data⟩ : String) = s := by
  cases s
  rfl

/-- C6: the string literal builder escapes backslashes and single quotes
(backslash first) and wraps the result in single quotes, so that for every
input string, un-escaping the produced literal by the same rules reconstructs
the original text exactly; the input `O'Brien\` produces the literal
`'O\'Brien\\'`. -/
theorem escapeString_roundTrip :
    (∀ clause : WhereClause, clause.valueType = .string →
      parseWhereValue clause = .ok ("'" ++ escapeString clause.value ++ "'"))
    ∧ (∀ s : String, unescapeStringLiteral ("'" ++ escapeString s ++ "'") = some s)
    ∧ escapeString "O'Brien\\" = "O\\'Brien\\\\"
    ∧ parseWhereValue ⟨0, "name", .eq, "O'Brien\\", .string⟩
      = .ok "'O\\'Brien\\\\'" := by
  refine ⟨?_, ?_, by rfl, by rfl⟩
  · intro clause h
    simp [parseWhereValue, h]
  · intro s
    have hdata : ("'" ++ escapeString s ++ "'").data
        = '\'' :: ((escapeString s).data ++ ['\'']) := by
      simp [String.data_append]
    simp only [unescapeStringLiteral, hdata, List.getLast?_concat, List.dropLast_concat,
      if_pos]
    have hesc : unescapeChars (escapeString s).data = s.data := unescapeChars_escape s.data
    rw [hesc, string_mk_data]

/-- Witness for C6 at the concrete input `O'Brien\`. -/
theorem escapeString_roundTrip_witness :
    (⟨0, "name", .eq, "O'Brien\\", .string⟩ : WhereClause).valueType = .string
    ∧ parseWhereValue ⟨0, "name", .eq, "O'Brien\\", .string⟩
      = .ok ("'" ++ escapeString "O'Brien\\" ++ "'")
    ∧ unescapeStringLiteral ("'" ++ escapeString "O'Brien\\" ++ "'") = some "O'Brien\\" :=
  ⟨rfl, escapeString_roundTrip.1 ⟨0, "name", .eq, "O'Brien\\", .string⟩ rfl,
    escapeString_roundTrip.2.1 "O'Brien\\"⟩

theorem mapM_except_error {α β : Type} (f : α → Except String β) :
    ∀ (l : List α) (msg : String), l.mapM f = .error msg → ∃ x ∈ l, f x = .error msg := by
  intro l
  induction l with
  | nil =>
    intro msg h
    rw [List.mapM_nil] at h
    exact absurd h (by simp [pure, Except.pure])
  | cons x t ih =>
    intro msg h
    rw [List.mapM_cons] at h
    cases hfx : f x with
    | error e =>
      rw [hfx] at h
      have he : e = msg := by
        simpa [Bind.bind, Except.bind] using h
      exact ⟨x, by simp, by rw [hfx, he]⟩
    | ok b =>
      rw [hfx] at h
      cases hmt : t.mapM f with
      | error e =>
        rw [hmt] at h
        have he : e = msg := by
          simpa [Bind.bind, Except.bind, Functor.map, Except.map] using h
        obtain ⟨y, hy, hfy⟩ := ih e hmt
        exact ⟨y, by simp [hy], by rw [hfy, he]⟩
      | ok bs =>
        rw [hmt] at h
        simp [Bind.bind, Except.bind, Functor.map, Except.map, pure, Except.pure] at h

theorem parseWhereValue_error_names_field (clause : WhereClause) (msg : String)
    (h : parseWhereValue clause = .error msg) :
    ∃ pre post, msg = pre ++ "\"" ++ clause.field ++ "\"" ++ post := by
  cases hvt : clause.valueType <;> simp only [parseWhereValue, hvt] at h
  case string => exact absurd h (by simp)
  case null => exact absurd h (by simp)
  case integer =>
    split at h
    · exact absurd h (by simp)
    · rw [Except.error.injEq] at h
      exact ⟨"Integer field ", " has an invalid integer value.", by rw [← h]; rfl⟩
  case double =>
    split at h
    · exact absurd h (by simp)
    · rw [Except.error.injEq] at h
      exact ⟨"Double field ", " has an invalid number.", by rw [← h]; rfl⟩
  case boolean =>
    split at h
    · exact absurd h (by simp)
    · rw [Except.error.injEq] at h
      exact ⟨"Boolean field ", " must be true or false.", by rw [← h]; rfl⟩
  case timestamp =>
    split at h
    · rw [Except.error.injEq] at h
      exact ⟨"Timestamp field ", " requires a value.", by rw [← h]; rfl⟩
    · exact absurd h (by simp)
  case key =>
    split at h
    · exact absurd h (by simp)
    · rw [Except.error.injEq] at h
      exact ⟨"Key field ", " must use a KEY(...) literal.", by rw [← h]; rfl⟩
  case blob =>
    split at h
    · rw [Except.error.injEq] at h
      exact ⟨"Blob field ", " requires a base64 value.", by rw [← h]; rfl⟩
    · exact absurd h (by simp)
  case geoPoint =>
    split at h
    · split at h
      · exact absurd h (by simp)
      all_goals
        rw [Except.error.injEq] at h
        exact ⟨"GeoPoint field ", " must be in \"lat,lng\" format.", by rw [← h]; rfl⟩
    · rw [Except.error.injEq] at h
      exact ⟨"GeoPoint field ", " must be in \"lat,lng\" format.", by rw [← h]; rfl⟩
  case array =>
    split at h
    · rw [Except.error.injEq] at h
      exact ⟨"Field ", " requires a literal value.", by rw [← h]; rfl⟩
    · exact absurd h (by simp)
  case entity =>
    split at h
    · rw [Except.error.injEq] at h
      exact ⟨"Field ", " requires a literal value.", by rw [← h]; rfl⟩
    · exact absurd h (by simp)
  case raw =>
    split at h
    · rw [Except.error.injEq] at h
      exact ⟨"Field ", " requires a literal value.", by rw [← h]; rfl⟩
    · exact absurd h (by simp)

/-- C9: building an IN clause rejects declared type `null` with an error;
otherwise it comma-splits the raw text, trims elements, drops empties
(`splitInValues`), fails when zero elements remain, and validates/escapes
each element independently against the declared type; every such validation
error message names the offending field. -/
theorem buildWhereClause_inOp (clause : WhereClause) (hop : clause.operator = .inOp) :
    (clause.valueType = .null →
      buildWhereClause clause
        = .error (fieldErr "IN does not support NULL type for " clause.field
            ". Use Raw type instead."))
    ∧ (¬clause.valueType = .null → splitInValues clause.value = [] →
      buildWhereClause clause
        = .error (fieldErr "IN filter for " clause.field
            " requires comma-separated values."))
    ∧ (¬clause.valueType = .null → ¬splitInValues clause.value = [] →
      buildWhereClause clause
        = ((splitInValues clause.value).mapM
            (fun value => parseWhereValue { clause with value := value })).map
            (fun parsedValues =>
              clause.field ++ " IN ARRAY(" ++ String.intercalate ", " parsedValues ++ ")"))
    ∧ (∀ msg, buildWhereClause clause = .error msg →
        ∃ pre post, msg = pre ++ "\"" ++ clause.field ++ "\"" ++ post) := by
  have hne : ¬clause.operator = .hasAncestor := by rw [hop]; decide
  refine ⟨?_, ?_, ?_, ?_⟩
  · intro hnull
    simp [buildWhereClause, hop, hne, hnull]
  · intro hnull hempty
    simp [buildWhereClause, hop, hne, hnull, hempty]
  · intro hnull hnonempty
    simp [buildWhereClause, hop, hne, hnull,
      List.isEmpty_iff, hnonempty]
  · intro msg h
    by_cases hnull : clause.valueType = .null
    · have h1 : buildWhereClause clause
          = .error (fieldErr "IN does not support NULL type for " clause.field
              ". Use Raw type instead.") := by
        simp [buildWhereClause, hop, hne, hnull]
      rw [h1, Except.error.injEq] at h
      exact ⟨"IN does not support NULL type for ", ". Use Raw type instead.",
        by rw [← h]; rfl⟩
    · by_cases hempty : splitInValues clause.value = []
      · have h1 : buildWhereClause clause
            = .error (fieldErr "IN filter for " clause.field
                " requires comma-separated values.") := by
          simp [buildWhereClause, hop, hne, hnull, hempty]
        rw [h1, Except.error.injEq] at h
        exact ⟨"IN filter for ", " requires comma-separated values.",
          by rw [← h]; rfl⟩
      · have h3 : buildWhereClause clause
            = ((splitInValues clause.value).mapM
                (fun value => parseWhereValue { clause with value := value })).map
                (fun parsedValues =>
                  clause.field ++ " IN ARRAY("
                    ++ String.intercalate ", " parsedValues ++ ")") := by
          simp [buildWhereClause, hop, hne, hnull, List.isEmpty_iff, hempty]
        rw [h3] at h
        cases hmap : (splitInValues clause.value).mapM
            (fun value => parseWhereValue { clause with value := value }) with
        | ok parsed => rw [hmap] at h; simp [Except.map] at h
        | error e =>
          rw [hmap] at h
          simp only [Except.map, Except.error.injEq] at h
          obtain ⟨x, hx, hfx⟩ := mapM_except_error _ _ _ hmap
          obtain ⟨pre, post, hmsg⟩ := parseWhereValue_error_names_field _ _ hfx
          exact ⟨pre, post, by rw [← h, hmsg]⟩

/-- Witness for C9: a null-typed IN clause errors naming the field, and a
string-typed IN clause with values "a, ,b" builds an ARRAY literal. -/
theorem buildWhereClause_inOp_witness :
    (⟨0, "tag", .inOp, "x", .null⟩ : WhereClause).operator = .inOp
    ∧ buildWhereClause ⟨0, "tag", .inOp, "x", .null⟩
      = .error (fieldErr "IN does not support NULL type for " "tag"
          ". Use Raw type instead.")
    ∧ buildWhereClause ⟨0, "tag", .inOp, "a, ,b", .string⟩
      = ((splitInValues "a, ,b").mapM
          (fun value => parseWhereValue
            { (⟨0, "tag", .inOp, "a, ,b", .string⟩ : WhereClause) with value := value })).map
          (fun parsedValues =>
            "tag" ++ " IN ARRAY(" ++ String.intercalate ", " parsedValues ++ ")") :=
  ⟨rfl, (buildWhereClause_inOp ⟨0, "tag", .inOp, "x", .null⟩ rfl).1 rfl,
    (buildWhereClause_inOp ⟨0, "tag", .inOp, "a, ,b", .string⟩ rfl).2.2.1
      (by decide) (by decide)⟩

/-! # Claim theorems: IN expansion (C2) -/

theorem expandLoop_spec (inCs : List WhereClause) :
    ∀ acc : List (List WhereClause),
      (∀ c ∈ inCs, ¬splitInValues c.value = []) →
      ∃ L, expandLoop inCs acc = .ok L
        ∧ L.length
          = acc.length * ((inCs.map (fun c => (splitInValues c.value).length)).prod)
        ∧ ∀ combo ∈ L, ∃ a ∈ acc, ∃ picks,
            List.Forall₂ (fun c v => v ∈ splitInValues c.value) inCs picks
            ∧ combo = a ++ List.zipWith mkEqClause inCs picks := by
  induction inCs with
  | nil =>
    intro acc _
    exact ⟨acc, rfl, by simp, fun combo hc => ⟨combo, hc, [], .nil, by simp⟩⟩
  | cons c rest ih =>
    intro acc hall
    have hc : ¬splitInValues c.value = [] := hall c (by simp)
    have hstep : expandLoop (c :: rest) acc
        = expandLoop rest (acc.flatMap (fun combo =>
            (splitInValues c.value).map (fun v => combo ++ [mkEqClause c v]))) := by
      simp [expandLoop, List.isEmpty_iff, hc, mkEqClause]
    obtain ⟨L, hL, hlen, hshape⟩ := ih _ (fun x hx => hall x (by simp [hx]))
    refine ⟨L, by rw [hstep]; exact hL, ?_, ?_⟩
    · rw [hlen, List.length_flatMap]
      have hconst : (acc.map (List.length ∘ fun combo =>
          (splitInValues c.value).map (fun v => combo ++ [mkEqClause c v])))
          = acc.map (fun _ => (splitInValues c.value).length) :=
        List.map_congr_left (fun a _ => by simp [Function.comp])
      rw [hconst, List.map_const', List.sum_replicate, smul_eq_mul,
        List.map_cons, List.prod_cons]
      ring
    · intro combo hcombo
      obtain ⟨a', ha', picks, hpk, hcombo_eq⟩ := hshape combo hcombo
      rw [List.mem_flatMap] at ha'
      obtain ⟨a, ha, hmem⟩ := ha'
      rw [List.mem_map] at hmem
      obtain ⟨v, hv, rfl⟩ := hmem
      refine ⟨a, ha, v :: picks, .cons hv hpk, ?_⟩
      rw [hcombo_eq, List.zipWith_cons_cons, List.append_assoc]
      rfl

/-- C2 (amended): restricted to IN-clauses each having at least one
comma-split value, `expandInClauses` succeeds exactly when the product of the
value counts is at most 50, returning exactly that many combinations — each
consisting of the kept non-IN clauses plus, for each IN-clause, one `=`
clause bound to one of its comma-split values — and fails with the
`TooManyCombinations` error when the product exceeds 50.  (When some
IN-clause has zero values the code instead fails with a values-required
error even though the product, 0, is at most 50 — see the counterexample.) -/
theorem expandInClauses_spec (clauses : List WhereClause)
    (hpos : ∀ k ∈ inValueCounts clauses, 0 < k) :
    ((inValueCounts clauses).prod ≤ 50 →
      ∃ L, expandInClauses clauses = .ok L
        ∧ L.length = (inValueCounts clauses).prod
        ∧ ∀ combo ∈ L, ∃ picks,
            List.Forall₂ (fun c v => v ∈ splitInValues c.value) (inClausesOf clauses) picks
            ∧ combo = baseClausesOf clauses
                ++ List.zipWith mkEqClause (inClausesOf clauses) picks)
    ∧ (50 < (inValueCounts clauses).prod →
      expandInClauses clauses = .error tooManyCombinationsMsg) := by
  have hnon : ∀ c ∈ inClausesOf clauses, ¬splitInValues c.value = [] := by
    intro c hcmem hnil
    have hk := hpos ((splitInValues c.value).length)
      (by simp only [inValueCounts, List.mem_map]; exact ⟨c, hcmem, rfl⟩)
    rw [hnil] at hk
    simp at hk
  obtain ⟨L, hL, hlen, hshape⟩ :=
    expandLoop_spec (inClausesOf clauses) [baseClausesOf clauses] hnon
  have hlen' : L.length = (inValueCounts clauses).prod := by
    simpa [inValueCounts] using hlen
  have hred : expandInClauses clauses
      = if L.length > 50 then .error tooManyCombinationsMsg else .ok L := by
    simp only [expandInClauses]
    rw [hL]
  constructor
  · intro hle
    refine ⟨L, ?_, hlen', ?_⟩
    · rw [hred, if_neg (by omega)]
    · intro combo hcombo
      obtain ⟨a, ha, picks, hpk, heq⟩ := hshape combo hcombo
      rw [List.mem_singleton] at ha
      exact ⟨picks, hpk, by rw [heq, ha]⟩
  · intro hgt
    rw [hred, if_pos (by omega)]

/-- Counterexample for C2 as stated: a single IN-clause whose raw text
comma-splits to zero values has value-count product 0 ≤ 50, yet
`expandInClauses` does not succeed — it fails with the values-required
error, not with `TooManyCombinations`. -/
theorem expandInClauses_c2_counterexample :
    inValueCounts [⟨0, "a", .inOp, " , ", .integer⟩] = [0]
    ∧ expandInClauses [⟨0, "a", .inOp, " , ", .integer⟩]
      = .error (fieldErr "IN filter for " "a" " requires comma-separated values.") :=
  ⟨rfl, rfl⟩

/-- Witness for C2 at two IN-clauses with 2 and 3 values (product 6 ≤ 50). -/
theorem expandInClauses_spec_witness :
    ∃ L, expandInClauses [⟨0, "a", .inOp, "1,2", .integer⟩, ⟨1, "b", .inOp, "x,y,z", .string⟩]
        = .ok L
      ∧ L.length
        = (inValueCounts
            [⟨0, "a", .inOp, "1,2", .integer⟩, ⟨1, "b", .inOp, "x,y,z", .string⟩]).prod
      ∧ ∀ combo ∈ L, ∃ picks,
          List.Forall₂ (fun c v => v ∈ splitInValues c.value)
            (inClausesOf [⟨0, "a", .inOp, "1,2", .integer⟩, ⟨1, "b", .inOp, "x,y,z", .string⟩])
            picks
          ∧ combo = baseClausesOf
                [⟨0, "a", .inOp, "1,2", .integer⟩, ⟨1, "b", .inOp, "x,y,z", .string⟩]
              ++ List.zipWith mkEqClause
                  (inClausesOf
                    [⟨0, "a", .inOp, "1,2", .integer⟩, ⟨1, "b", .inOp, "x,y,z", .string⟩])
                  picks :=
  (expandInClauses_spec
    [⟨0, "a", .inOp, "1,2", .integer⟩, ⟨1, "b", .inOp, "x,y,z", .string⟩]
    (by decide)).1 (by decide)

/-! # Claim theorems: aggregation (C7) -/

/-- C7: `count` returns the row count unconditionally, ignoring the field;
`sum`/`avg`/`min`/`max` read the named property from every row, coerce
integer/double tags to a number, skip every other tag and absent properties
without error, and reduce over the numeric subset; an empty numeric subset
yields no value (`none`), not zero and not NaN — so `sum` over rows with
integer `10`, double `4.5`, and one row lacking the field yields `14.5`. -/
theorem calculateAggregation_spec :
    (∀ es field, calculateAggregation .count (some es) field = some (es.length : ℚ))
    ∧ (∀ a field, calculateAggregation a .none field = .none)
    ∧ (∀ a es field, ¬a = .none → ¬a = .count → numericValues es field = [] →
        calculateAggregation a (some es) field = .none)
    ∧ (∀ es field, ¬numericValues es field = [] →
        calculateAggregation .sum (some es) field
          = some ((numericValues es field).foldl (· + ·) 0)
        ∧ calculateAggregation .avg (some es) field
          = some ((numericValues es field).foldl (· + ·) 0
              / ((numericValues es field).length : ℚ))
        ∧ calculateAggregation .min (some es) field
          = some (listMinQ (numericValues es field))
        ∧ calculateAggregation .max (some es) field
          = some (listMaxQ (numericValues es field)))
    ∧ (∀ e es field, e.properties = .none →
        numericValues (e :: es) field = numericValues es field)
    ∧ (∀ e es field props, e.properties = some props → getProp props field = .none →
        numericValues (e :: es) field = numericValues es field)
    ∧ (∀ e es field props v, e.properties = some props → getProp props field = some v →
        getNumberValue v = .none →
        numericValues (e :: es) field = numericValues es field)
    ∧ calculateAggregation .sum (some aggRows) "x" = some ((29 : ℚ) / 2)
    ∧ calculateAggregation .avg (some [aggRow3]) "x" = .none := by
  refine ⟨fun es field => ?_, fun a field => rfl, fun a es field ha hc hnil => ?_,
    fun es field hne => ?_, fun e es field h => ?_, fun e es field props h1 h2 => ?_,
    fun e es field props v h1 h2 h3 => ?_, ?_, by rfl⟩
  · simp [calculateAggregation]
  · simp [calculateAggregation, ha, hc, hnil]
  · refine ⟨?_, ?_, ?_, ?_⟩ <;>
      simp [calculateAggregation, List.isEmpty_iff, hne]
  · simp [numericValues, h]
  · simp [numericValues, h1, h2]
  · simp [numericValues, h1, h2, h3]
  · have hv : numericValues aggRows "x" = [((10 : Int) : ℚ), JsNum.toRat ⟨45, 1⟩] := rfl
    simp [calculateAggregation, hv, JsNum.toRat]
    norm_num

/-- Witness for C7's conditional parts at the concrete rows: the numeric
subset of the three-row example is non-empty, and `sum` reduces it. -/
theorem calculateAggregation_spec_witness :
    ¬numericValues aggRows "x" = []
    ∧ calculateAggregation .sum (some aggRows) "x"
      = some ((numericValues aggRows "x").foldl (· + ·) 0) :=
  ⟨by rw [show numericValues aggRows "x"
        = [((10 : Int) : ℚ), JsNum.toRat ⟨45, 1⟩] from rfl]; simp,
    (calculateAggregation_spec.2.2.2.1 aggRows "x"
      (by rw [show numericValues aggRows "x"
          = [((10 : Int) : ℚ), JsNum.toRat ⟨45, 1⟩] from rfl]; simp)).1⟩

/-! # Claim theorems: join key collection (C1) -/

theorem count_filterMap_keyAt (e : Entity) (k : Key) :
    ∀ props : List String,
      (props.filterMap (keyAt e)).count k
        = (props.filter (fun prop => keyAt e prop == some k)).length := by
  intro props
  induction props with
  | nil => rfl
  | cons p t ih =>
    rw [List.filterMap_cons, List.filter_cons]
    cases hk : keyAt e p with
    | none =>
      simp only [hk, ih]
      rw [if_neg (by simp)]
    | some k' =>
      by_cases hkk : k' = k
      · subst hkk
        simp only [hk, List.count_cons, ih]
        rw [if_pos (by simp)]
        simp
      · simp only [hk, List.count_cons, ih]
        rw [if_neg (by simp [hkk])]
        simp [hkk]

/-- C1 (amended): `keysToJoin` does not deduplicate — it collects, in
row-major order, one entry per row/property occurrence that holds a key
reference, so a key referenced by m occurrences appears m times in the
lookup request (and the request is empty when there are no results or no
configured join properties). -/
theorem keysToJoin_spec (results : List Entity) (joinProperties : List String) (k : Key)
    (hne : ¬joinProperties = []) :
    (keysToJoin (some results) joinProperties).count k
      = (results.map (fun e =>
          (joinProperties.filter (fun prop => keyAt e prop == some k)).length)).sum
    ∧ keysToJoin .none joinProperties = []
    ∧ keysToJoin (some results) [] = [] := by
  refine ⟨?_, rfl, by simp [keysToJoin]⟩
  rw [keysToJoin, if_neg (by simpa [List.isEmpty_iff] using hne)]
  induction results with
  | nil => rfl
  | cons e t ih =>
    rw [List.flatMap_cons, List.count_append, List.map_cons, List.sum_cons,
      count_filterMap_keyAt, ih]

/-- Counterexample for C1 as stated: two rows referencing the same key through
the configured property "owner" put that key twice into the lookup request,
not once. -/
theorem keysToJoin_c1_counterexample :
    keysToJoin
        (some [⟨⟨"p", .none, [⟨"T", .id 1⟩]⟩,
                some [("owner", .keyValue ⟨"p", .none, [⟨"Org", .name "acme"⟩]⟩)]⟩,
               ⟨⟨"p", .none, [⟨"T", .id 2⟩]⟩,
                some [("owner", .keyValue ⟨"p", .none, [⟨"Org", .name "acme"⟩]⟩)]⟩])
        ["owner"]
      = [⟨"p", .none, [⟨"Org", .name "acme"⟩]⟩, ⟨"p", .none, [⟨"Org", .name "acme"⟩]⟩]
    ∧ (keysToJoin
        (some [⟨⟨"p", .none, [⟨"T", .id 1⟩]⟩,
                some [("owner", .keyValue ⟨"p", .none, [⟨"Org", .name "acme"⟩]⟩)]⟩,
               ⟨⟨"p", .none, [⟨"T", .id 2⟩]⟩,
                some [("owner", .keyValue ⟨"p", .none, [⟨"Org", .name "acme"⟩]⟩)]⟩])
        ["owner"]).count ⟨"p", .none, [⟨"Org", .name "acme"⟩]⟩ = 2 :=
  ⟨rfl, by decide⟩

/-- Witness for C1's amended count law at the two-row example above. -/
theorem keysToJoin_spec_witness :
    ¬(["owner"] : List String) = []
    ∧ (keysToJoin
        (some [⟨⟨"p", .none, [⟨"T", .id 1⟩]⟩,
                some [("owner", .keyValue ⟨"p", .none, [⟨"Org", .name "acme"⟩]⟩)]⟩,
               ⟨⟨"p", .none, [⟨"T", .id 2⟩]⟩,
                some [("owner", .keyValue ⟨"p", .none, [⟨"Org", .name "acme"⟩]⟩)]⟩])
        ["owner"]).count ⟨"p", .none, [⟨"Org", .name "acme"⟩]⟩
      = ([⟨⟨"p", .none, [⟨"T", .id 1⟩]⟩,
            some [("owner", .keyValue ⟨"p", .none, [⟨"Org", .name "acme"⟩]⟩)]⟩,
          (⟨⟨"p", .none, [⟨"T", .id 2⟩]⟩,
            some [("owner", .keyValue ⟨"p", .none, [⟨"Org", .name "acme"⟩]⟩)]⟩ : Entity)].map
          (fun e => ((["owner"] : List String).filter
            (fun prop => keyAt e prop == some ⟨"p", .none, [⟨"Org", .name "acme"⟩]⟩)).length)).sum :=
  ⟨by simp,
    (keysToJoin_spec
      [⟨⟨"p", .none, [⟨"T", .id 1⟩]⟩,
        some [("owner", .keyValue ⟨"p", .none, [⟨"Org", .name "acme"⟩]⟩)]⟩,
       ⟨⟨"p", .none, [⟨"T", .id 2⟩]⟩,
        some [("owner", .keyValue ⟨"p", .none, [⟨"Org", .name "acme"⟩]⟩)]⟩]
      ["owner"] ⟨"p", .none, [⟨"Org", .name "acme"⟩]⟩ (by simp)).1⟩

/-! # Claim theorems: join merging (C4) -/

theorem getProp_setProp_same (name : String) (v : PropertyValue) :
    ∀ ps, getProp (setProp ps name v) name = some v := by
  intro ps
  induction ps with
  | nil =>
    simp only [setProp, getProp]
    rw [List.find?_cons_of_pos _ (by simp)]
    rfl
  | cons kv rest ih =>
    obtain ⟨k, w⟩ := kv
    by_cases hk : k = name
    · simp only [setProp, if_pos hk, getProp]
      rw [List.find?_cons_of_pos _ (by simp)]
      rfl
    · simp only [setProp, if_neg hk, getProp]
      rw [List.find?_cons_of_neg _ (by simp [hk])]
      exact ih

theorem getProp_setProp_other (name other : String) (v : PropertyValue)
    (h : ¬other = name) :
    ∀ ps, getProp (setProp ps name v) other = getProp ps other := by
  have hno : ¬name = other := fun he => h he.symm
  intro ps
  induction ps with
  | nil =>
    simp only [setProp, getProp]
    rw [List.find?_cons_of_neg _ (by simp [hno])]
  | cons kv rest ih =>
    obtain ⟨k, w⟩ := kv
    by_cases hk : k = name
    · subst hk
      simp only [setProp, eq_self_iff_true, if_true, getProp]
      rw [List.find?_cons_of_neg _ (by simp [hno]),
        List.find?_cons_of_neg _ (by simp [hno])]
    · simp only [setProp, if_neg hk, getProp]
      by_cases ho : k = other
      · rw [List.find?_cons_of_pos _ (by simp [ho]),
          List.find?_cons_of_pos _ (by simp [ho])]
      · rw [List.find?_cons_of_neg _ (by simp [ho]),
          List.find?_cons_of_neg _ (by simp [ho])]
        exact ih

theorem joined_suffix_inj {p q : String} (h : p ++ "_joined" = q ++ "_joined") : p = q := by
  have hd : p.data ++ "_joined".data = q.data ++ "_joined".data := by
    have h2 := congrArg String.data h
    simpa [String.data_append] using h2
  have h3 : p.data = q.data := List.append_cancel_right hd
  cases p
  cases q
  exact congrArg String.mk h3

theorem mergeFold_no_hit (e : Entity) (M : List (String × Entity)) (project : String)
    (nspace : Option String) :
    ∀ (ps : List String) (acc : List (String × PropertyValue) × Bool),
      (∀ p ∈ ps, joinHit e M project nspace p = .none) →
      ps.foldl (mergeStep e M project nspace) acc = acc := by
  intro ps
  induction ps with
  | nil => intro acc _; rfl
  | cons q t ih =>
    intro acc hall
    rw [List.foldl_cons]
    have hq : joinHit e M project nspace q = .none := hall q (by simp)
    rw [show mergeStep e M project nspace acc q = acc by simp [mergeStep, hq]]
    exact ih acc (fun p hp => hall p (by simp [hp]))

theorem mergeFold_flag_true (e : Entity) (M : List (String × Entity)) (project : String)
    (nspace : Option String) :
    ∀ (ps : List String) (acc : List (String × PropertyValue) × Bool),
      acc.2 = true →
      (ps.foldl (mergeStep e M project nspace) acc).2 = true := by
  intro ps
  induction ps with
  | nil => intro acc h; exact h
  | cons q t ih =>
    intro acc h
    rw [List.foldl_cons]
    cases hq : joinHit e M project nspace q with
    | none => exact ih _ (by simpa [mergeStep, hq])
    | some j => exact ih _ (by simp [mergeStep, hq])

theorem mergeFold_hit_flag (e : Entity) (M : List (String × Entity)) (project : String)
    (nspace : Option String) :
    ∀ (ps : List String) (acc : List (String × PropertyValue) × Bool),
      (∃ p ∈ ps, ¬joinHit e M project nspace p = .none) →
      (ps.foldl (mergeStep e M project nspace) acc).2 = true := by
  intro ps
  induction ps with
  | nil => intro acc h; simp at h
  | cons q t ih =>
    intro acc h
    rw [List.foldl_cons]
    cases hq : joinHit e M project nspace q with
    | some j =>
      exact mergeFold_flag_true e M project nspace t _ (by simp [mergeStep, hq])
    | none =>
      obtain ⟨p, hp, hne⟩ := h
      rcases List.mem_cons.mp hp with rfl | hpt
      · exact absurd hq hne
      · exact ih _ ⟨p, hpt, hne⟩

theorem mergeFold_preserve (e : Entity) (M : List (String × Entity)) (project : String)
    (nspace : Option String) :
    ∀ (ps : List String) (acc : List (String × PropertyValue) × Bool) (name : String),
      (∀ p ∈ ps, ¬(p ++ "_joined" = name ∧ ¬joinHit e M project nspace p = .none)) →
      getProp (ps.foldl (mergeStep e M project nspace) acc).1 name = getProp acc.1 name := by
  intro ps
  induction ps with
  | nil => intro acc name _; rfl
  | cons q t ih =>
    intro acc name hall
    rw [List.foldl_cons]
    cases hq : joinHit e M project nspace q with
    | none =>
      rw [show mergeStep e M project nspace acc q = acc by simp [mergeStep, hq]]
      exact ih acc name (fun p hp => hall p (by simp [hp]))
    | some j =>
      have hname : ¬q ++ "_joined" = name := by
        have := hall q (by simp)
        intro he
        exact this ⟨he, by simp [hq]⟩
      rw [show mergeStep e M project nspace acc q
          = (setProp acc.1 (q ++ "_joined") (.entityValue (j.properties.getD [])), true)
          by simp [mergeStep, hq]]
      rw [ih _ name (fun p hp => hall p (by simp [hp]))]
      exact getProp_setProp_other _ name _ (fun he => hname he.symm) acc.1

theorem mergeFold_hit_value (e : Entity) (M : List (String × Entity)) (project : String)
    (nspace : Option String) :
    ∀ (ps : List String) (acc : List (String × PropertyValue) × Bool)
      (prop : String) (j : Entity),
      prop ∈ ps → joinHit e M project nspace prop = some j →
      getProp (ps.foldl (mergeStep e M project nspace) acc).1 (prop ++ "_joined")
        = some (.entityValue (j.properties.getD [])) := by
  intro ps
  induction ps with
  | nil => intro acc prop j hmem; simp at hmem
  | cons q t ih =>
    intro acc prop j hmem hhit
    by_cases hmt : prop ∈ t
    · rw [List.foldl_cons]
      exact ih _ prop j hmt hhit
    · have hq : prop = q := by
        rcases List.mem_cons.mp hmem with h | h
        · exact h
        · exact absurd h hmt
      subst hq
      rw [List.foldl_cons]
      rw [show mergeStep e M project nspace acc prop
          = (setProp acc.1 (prop ++ "_joined") (.entityValue (j.properties.getD [])), true)
          by simp [mergeStep, hhit]]
      rw [mergeFold_preserve e M project nspace t _ (prop ++ "_joined") ?cond]
      · exact getProp_setProp_same _ _ _
      case cond =>
        intro p hp hcontra
        exact hmt (joined_suffix_inj hcontra.1 ▸ hp)

/-- C4: for every result set and join configuration, `finalEntities` maps
each row through a pure per-row merge (rows are values — no input row is
mutated); a row whose configured property holds a key canonically matching a
fetched row gains `<property>_joined` tagged entity wrapping the fetched
row's properties (empty mapping if it had none); a row whose configured keys
match nothing is returned identical to the input; and a merged row keeps its
key and every property other than the `_joined` additions. -/
theorem finalEntities_spec (results joined : List Entity) (joinProperties : List String)
    (project : String) (nspace : Option String) (M : List (String × Entity)) (e : Entity)
    (hne : ¬joinProperties = []) :
    finalEntities (some results) (some joined) joinProperties project nspace
      = results.map (mergeRow joinProperties (entityMapOf joined project nspace)
          project nspace)
    ∧ ((∀ prop ∈ joinProperties, joinHit e M project nspace prop = .none) →
        mergeRow joinProperties M project nspace e = e)
    ∧ (mergeRow joinProperties M project nspace e).key = e.key
    ∧ (∀ prop ∈ joinProperties, ∀ j, joinHit e M project nspace prop = some j →
        getProp ((mergeRow joinProperties M project nspace e).properties.getD [])
          (prop ++ "_joined") = some (.entityValue (j.properties.getD [])))
    ∧ (∀ name, (∀ prop ∈ joinProperties,
          ¬(prop ++ "_joined" = name ∧ ¬joinHit e M project nspace prop = .none)) →
        getProp ((mergeRow joinProperties M project nspace e).properties.getD []) name
          = getProp (e.properties.getD []) name) := by
  refine ⟨?_, ?_, ?_, ?_, ?_⟩
  · rw [finalEntities, if_neg (by simpa [List.isEmpty_iff] using hne)]
  · intro hall
    rw [mergeRow, mergeFold_no_hit e M project nspace joinProperties _ hall]
    rfl
  · rw [mergeRow]
    split <;> rfl
  · intro prop hmem j hhit
    have hflag : (joinProperties.foldl (mergeStep e M project nspace)
        (e.properties.getD [], false)).2 = true :=
      mergeFold_hit_flag e M project nspace joinProperties _
        ⟨prop, hmem, by simp [hhit]⟩
    rw [mergeRow]
    simp only [hflag, if_true]
    simpa using mergeFold_hit_value e M project nspace joinProperties _ prop j hmem hhit
  · intro name hall
    rw [mergeRow]
    split
    · simpa using mergeFold_preserve e M project nspace joinProperties _ name hall
    · rfl

/-- Witness for C4 at a one-row result whose "owner" key matches a fetched
row, and a name ("other") left untouched by the merge. -/
theorem finalEntities_spec_witness :
    ¬(["owner"] : List String) = []
    ∧ joinHit
        ⟨⟨"p", .none, [⟨"T", .id 1⟩]⟩,
          some [("owner", .keyValue ⟨"p", .none, [⟨"Org", .name "acme"⟩]⟩),
                ("other", .stringValue "keep")]⟩
        (entityMapOf [⟨⟨"p", .none, [⟨"Org", .name "acme"⟩]⟩, some [("title", .stringValue "Acme")]⟩]
          "p" .none) "p" .none "owner"
      = some ⟨⟨"p", .none, [⟨"Org", .name "acme"⟩]⟩, some [("title", .stringValue "Acme")]⟩
    ∧ getProp ((mergeRow ["owner"]
          (entityMapOf [⟨⟨"p", .none, [⟨"Org", .name "acme"⟩]⟩, some [("title", .stringValue "Acme")]⟩]
            "p" .none) "p" .none
          ⟨⟨"p", .none, [⟨"T", .id 1⟩]⟩,
            some [("owner", .keyValue ⟨"p", .none, [⟨"Org", .name "acme"⟩]⟩),
                  ("other", .stringValue "keep")]⟩).properties.getD [])
        ("owner" ++ "_joined")
      = some (.entityValue
          ((some [("title", PropertyValue.stringValue "Acme")]).getD [])) :=
  ⟨by simp, rfl,
    (finalEntities_spec
      [⟨⟨"p", .none, [⟨"T", .id 1⟩]⟩,
        some [("owner", .keyValue ⟨"p", .none, [⟨"Org", .name "acme"⟩]⟩),
              ("other", .stringValue "keep")]⟩]
      [⟨⟨"p", .none, [⟨"Org", .name "acme"⟩]⟩, some [("title", .stringValue "Acme")]⟩]
      ["owner"] "p" .none
      (entityMapOf [⟨⟨"p", .none, [⟨"Org", .name "acme"⟩]⟩, some [("title", .stringValue "Acme")]⟩]
        "p" .none)
      ⟨⟨"p", .none, [⟨"T", .id 1⟩]⟩,
        some [("owner", .keyValue ⟨"p", .none, [⟨"Org", .name "acme"⟩]⟩),
              ("other", .stringValue "keep")]⟩
      (by simp)).2.2.2.1 "owner" (by simp)
      ⟨⟨"p", .none, [⟨"Org", .name "acme"⟩]⟩, some [("title", .stringValue "Acme")]⟩ rfl⟩

/-! # Claim theorems: edit-value round trip (C3) — number rendering -/

theorem ofDigitsM_replicate_zero (k : Nat) : ofDigitsM (List.replicate k 0) = 0 := by
  induction k with
  | zero => rfl
  | succ k ih => simp [List.replicate, ofDigitsM, ih]

theorem ofDigitsM_append_zeros (t : List Nat) (k : Nat) :
    ofDigitsM (t ++ List.replicate k 0) = ofDigitsM t := by
  induction t with
  | nil => simp [ofDigitsM_replicate_zero, ofDigitsM]
  | cons d r ih => simp [ofDigitsM, ih]

theorem charsVal_replicate_zero_append (k : Nat) (ds : List Char) :
    charsVal (List.replicate k '0' ++ ds) = charsVal ds := by
  simp only [charsVal, List.map_append, List.map_replicate, List.reverse_append,
    List.reverse_replicate]
  rw [show charVal '0' = 0 from rfl, ofDigitsM_append_zeros]

theorem digitsFuel_length : ∀ f n k, n ≤ f → n < 10 ^ k → (digitsFuel f n).length ≤ k := by
  intro f
  induction f with
  | zero =>
    intro n k h _
    interval_cases n
    simp [digitsFuel]
  | succ f ih =>
    intro n k h hk
    match n with
    | 0 => simp [digitsFuel]
    | m + 1 =>
      have hkpos : 0 < k := by
        rcases Nat.eq_zero_or_pos k with rfl | hp
        · simp at hk
        · exact hp
      have hdivf : (m + 1) / 10 ≤ f := by omega
      have hdivk : (m + 1) / 10 < 10 ^ (k - 1) := by
        rw [Nat.div_lt_iff_lt_mul (by norm_num)]
        calc m + 1 < 10 ^ k := hk
        _ = 10 ^ (k - 1) * 10 := by
          rw [← pow_succ]
          congr 1
          omega
      have := ih ((m + 1) / 10) (k - 1) hdivf hdivk
      simp only [digitsFuel, List.length_cons]
      omega

theorem natToChars_length_le {fr s : Nat} (hfr : fr < 10 ^ s) (hs : 0 < s) :
    (natToChars fr).length ≤ s := by
  by_cases h : fr = 0
  · subst h; simpa [natToChars] using hs
  · simp only [natToChars, if_neg h, List.length_reverse, List.length_map]
    exact digitsFuel_length fr fr s le_rfl hfr

theorem fracChars_length {fr s : Nat} (hfr : fr < 10 ^ s) (hs : 0 < s) :
    (fracChars s fr).length = s := by
  have hle := natToChars_length_le hfr hs
  simp only [fracChars, List.length_append, List.length_replicate]
  omega

theorem fracChars_all_digit (s fr : Nat) : ∀ c ∈ fracChars s fr, c.isDigit = true := by
  intro c hc
  simp only [fracChars, List.mem_append, List.mem_replicate] at hc
  rcases hc with ⟨_, rfl⟩ | hc
  · rfl
  · exact natToChars_all_digit fr c hc

theorem charsVal_fracChars (s fr : Nat) : charsVal (fracChars s fr) = fr := by
  rw [fracChars, charsVal_replicate_zero_append, charsVal_natToChars]

theorem nil_head_aux {p : Char → Bool} :
    ∀ c, ([] : List Char).head? = some c → p c = false :=
  fun _ hc => absurd hc (by simp)

theorem parseJsPos_print (a s : Nat) :
    parseJsPos (natToChars (a / 10 ^ s)
      ++ (if s = 0 then [] else '.' :: fracChars s (a % 10 ^ s))) = some ⟨(a : Int), s⟩ := by
  by_cases hs : s = 0
  · subst hs
    have harg : (natToChars (a / 10 ^ 0)
        ++ (if (0 : Nat) = 0 then ([] : List Char) else '.' :: fracChars 0 (a % 10 ^ 0)))
        = natToChars a := by norm_num
    rw [harg]
    have htake := takeWhile_append_all (p := Char.isDigit)
      (natToChars_all_digit a) nil_head_aux
    have hdrop := dropWhile_append_all (p := Char.isDigit)
      (natToChars_all_digit a) nil_head_aux
    simp only [List.append_nil] at htake hdrop
    simp only [parseJsPos, htake, hdrop, List.isEmpty_iff]
    rw [if_neg (natToChars_ne_nil a), charsVal_natToChars]
  · have hs' : 0 < s := by omega
    have hmod : a % 10 ^ s < 10 ^ s := Nat.mod_lt _ (by positivity)
    rw [if_neg hs]
    have hhead : ∀ c, (('.' :: fracChars s (a % 10 ^ s)) : List Char).head? = some c →
        c.isDigit = false := by
      intro c hc
      simp only [List.head?_cons, Option.some.injEq] at hc
      subst hc
      rfl
    have htake := takeWhile_append_all (p := Char.isDigit)
      (natToChars_all_digit (a / 10 ^ s)) hhead
    have hdrop := dropWhile_append_all (p := Char.isDigit)
      (natToChars_all_digit (a / 10 ^ s)) hhead
    simp only [parseJsPos, htake, hdrop, List.isEmpty_iff]
    rw [if_neg (natToChars_ne_nil _)]
    have htake2 := takeWhile_append_all (p := Char.isDigit)
      (fracChars_all_digit s (a % 10 ^ s)) nil_head_aux
    have hdrop2 := dropWhile_append_all (p := Char.isDigit)
      (fracChars_all_digit s (a % 10 ^ s)) nil_head_aux
    simp only [List.append_nil] at htake2 hdrop2
    simp only [htake2, hdrop2, List.isEmpty_iff]
    rw [if_neg (by
      intro hnil
      have := fracChars_length hmod hs'
      rw [hnil] at this
      simp at this
      omega)]
    simp only [List.isEmpty_nil, Bool.not_true, Bool.false_eq_true, if_false]
    rw [charsVal_natToChars, charsVal_fracChars, fracChars_length hmod hs']
    have hval : a / 10 ^ s * 10 ^ s + a % 10 ^ s = a := by
      rw [mul_comm]
      exact Nat.div_add_mod a (10 ^ s)
    rw [hval]

theorem parseJsNumExact_print (x : JsNum) : parseJsNumExact (printJsNum x) = some x := by
  obtain ⟨m, s⟩ := x
  by_cases hm : m < 0
  · simp only [printJsNum, if_pos hm, List.cons_append, List.nil_append, parseJsNumExact,
      List.head?_cons, if_pos rfl, List.tail_cons]
    rw [parseJsPos_print m.natAbs s, Option.map_some']
    have hneg : -((m.natAbs : Int)) = m := by omega
    rw [hneg]
    simp
  · simp only [printJsNum, if_neg hm, List.nil_append, parseJsNumExact]
    rw [if_neg (by
      cases hne : natToChars (m.natAbs / 10 ^ s) with
      | nil => exact absurd hne (natToChars_ne_nil _)
      | cons c t =>
        have hd : c.isDigit = true := natToChars_all_digit _ c (by rw [hne]; simp)
        simp only [List.cons_append, List.head?_cons, Option.some.injEq]
        intro hc
        subst hc
        simp [Char.isDigit] at hd)]
    rw [parseJsPos_print m.natAbs s]
    have hpos : ((m.natAbs : Int)) = m := by omega
    rw [hpos]

theorem printJsNum_ne_nil (x : JsNum) : printJsNum x ≠ [] := by
  obtain ⟨m, s⟩ := x
  intro h
  rw [printJsNum] at h
  rw [List.append_eq_nil, List.append_eq_nil] at h
  exact natToChars_ne_nil _ h.1.2

theorem printJsNum_no_comma (x : JsNum) : ∀ c ∈ printJsNum x, ¬c = ',' := by
  obtain ⟨m, s⟩ := x
  intro c hc
  simp only [printJsNum, List.mem_append] at hc
  rcases hc with (hc | hc) | hc
  · split at hc
    · simp only [List.mem_singleton] at hc
      subst hc
      decide
    · simp at hc
  · have := natToChars_all_digit _ c hc
    intro hcomma
    subst hcomma
    simp [Char.isDigit] at this
  · split at hc
    · simp at hc
    · simp only [List.mem_cons] at hc
      rcases hc with rfl | hc
      · decide
      · have := fracChars_all_digit _ _ c hc
        intro hcomma
        subst hcomma
        simp [Char.isDigit] at this

theorem parseOptNum_print (o : Option JsNum) : parseOptNum (printOptNum o) = some o := by
  cases o with
  | none => rfl
  | some x =>
    simp only [printOptNum, parseOptNum, List.isEmpty_iff]
    rw [if_neg (printJsNum_ne_nil x), parseJsNumExact_print, Option.map_some']

theorem parseGeo_print (lat lng : Option JsNum) :
    parseGeo (printOptNum lat ++ ',' :: printOptNum lng) = some (lat, lng) := by
  have hall : ∀ c ∈ printOptNum lat, (fun c => !(c = ',')) c = true := by
    intro c hc
    cases lat with
    | none => simp [printOptNum] at hc
    | some x => simp [printJsNum_no_comma x c hc]
  have hhead : ∀ c, ((',' :: printOptNum lng) : List Char).head? = some c →
      (fun c => !(c = ',')) c = false := by
    intro c hc
    simp only [List.head?_cons, Option.some.injEq] at hc
    subst hc
    simp
  have htake := takeWhile_append_all hall hhead
  have hdrop := dropWhile_append_all hall hhead
  simp only [parseGeo, htake, hdrop, parseOptNum_print]

theorem parseIntChars_print (i : Int) : parseIntChars (intToChars i) = some i := by
  have := readInt_encode i [] (by simp)
  simp only [List.append_nil] at this
  simp [parseIntChars, this]

/-! # Claim theorems: edit-value round trip (C3) — canonical key strings -/

theorem readQBody_cons_ne (c : Char) (rest : List Char) (h1 : ¬c = '\\') (h2 : ¬c = '"') :
    readQBody (c :: rest) = (readQBody rest).map (fun p => (c :: p.1, p.2)) := by
  rw [readQBody.eq_def]
  split
  · rename_i heq
    exact absurd heq (by simp)
  · rename_i c2 r2 heq
    rw [List.cons.injEq] at heq
    exact absurd heq.1 h1
  · rename_i r2 heq
    rw [List.cons.injEq] at heq
    exact absurd heq.1 h2
  · rename_i c2 r2 _ _ heq
    rw [List.cons.injEq] at heq
    rw [heq.1, heq.2]

theorem readQBody_encode : ∀ (s rest : List Char),
    readQBody (qescChar s ++ '"' :: rest) = some (s, rest) := by
  intro s
  induction s with
  | nil => intro rest; rfl
  | cons c t ih =>
    intro rest
    by_cases h1 : c = '\\'
    · subst h1
      show readQBody ('\\' :: '\\' :: (qescChar t ++ '"' :: rest)) = some ('\\' :: t, rest)
      rw [show readQBody ('\\' :: '\\' :: (qescChar t ++ '"' :: rest))
          = (readQBody (qescChar t ++ '"' :: rest)).map (fun p => ('\\' :: p.1, p.2))
          from rfl, ih]
      rfl
    · by_cases h2 : c = '"'
      · subst h2
        show readQBody ('\\' :: '"' :: (qescChar t ++ '"' :: rest)) = some ('"' :: t, rest)
        rw [show readQBody ('\\' :: '"' :: (qescChar t ++ '"' :: rest))
            = (readQBody (qescChar t ++ '"' :: rest)).map (fun p => ('"' :: p.1, p.2))
            from rfl, ih]
        rfl
      · have hq : qescChar (c :: t) ++ '"' :: rest = c :: (qescChar t ++ '"' :: rest) := by
          simp [qescChar, h1, h2]
        rw [hq, readQBody_cons_ne c _ h1 h2, ih]
        rfl

theorem readQuoted_encode (s rest : List Char) :
    readQuoted (printQuoted s ++ rest) = some (s, rest) := by
  have hpq : printQuoted s ++ rest = '"' :: (qescChar s ++ '"' :: rest) := by
    simp [printQuoted]
  rw [hpq]
  show readQBody (qescChar s ++ '"' :: rest) = some (s, rest)
  exact readQBody_encode s rest

theorem printSegs_shape (t : List PathSegment) :
    printSegs t = [] ∨ ∃ r, printSegs t = '/' :: r := by
  cases t with
  | nil => exact Or.inl rfl
  | cons s t => exact Or.inr ⟨_, rfl⟩

theorem printSegs_head_not_digit (t : List PathSegment) :
    ∀ c, (printSegs t).head? = some c → c.isDigit = false := by
  intro c hc
  rcases printSegs_shape t with hnil | ⟨r, hr⟩
  · rw [hnil] at hc
    exact absurd hc (by simp)
  · rw [hr] at hc
    simp only [List.head?_cons, Option.some.injEq] at hc
    subst hc
    rfl

theorem len_printSegs (t : List PathSegment) : t.length ≤ (printSegs t).length := by
  induction t with
  | nil => simp [printSegs]
  | cons s t ih =>
    simp only [printSegs, List.length_append, List.length_cons, printSeg]
    omega

theorem parseSegRef_id (i : Int) (rest : List Char)
    (h : ∀ c, rest.head? = some c → c.isDigit = false) :
    parseSegRef ('#' :: (intToChars i ++ rest)) = some (.id i, rest) := by
  have h0 : parseSegRef ('#' :: (intToChars i ++ rest))
      = (readInt (intToChars i ++ rest)).map (fun p => (.id p.1, p.2)) := rfl
  rw [h0, readInt_encode i rest h]
  rfl

theorem parseSegRef_name (nm rest : List Char) :
    parseSegRef ('@' :: (printQuoted nm ++ rest)) = some (.name ⟨nm⟩, rest) := by
  have h0 : parseSegRef ('@' :: (printQuoted nm ++ rest))
      = (readQuoted (printQuoted nm ++ rest)).map (fun p => (.name ⟨p.1⟩, p.2)) := rfl
  rw [h0, readQuoted_encode]
  rfl

theorem parseSegRef_printRef (ref : PathId) (rest : List Char)
    (h : ∀ c, rest.head? = some c → c.isDigit = false) :
    parseSegRef (printRef ref ++ rest) = some (ref, rest) := by
  cases ref with
  | id i =>
    have he : printRef (.id i) ++ rest = '#' :: (intToChars i ++ rest) := by
      simp [printRef]
    rw [he, parseSegRef_id i rest h]
  | name n =>
    have he : printRef (.name n) ++ rest = '@' :: (printQuoted n.data ++ rest) := by
      simp [printRef]
    rw [he, parseSegRef_name n.data rest]

theorem parseSegs_encode : ∀ (segs : List PathSegment) (fuel : Nat),
    segs.length ≤ fuel → parseSegs fuel (printSegs segs) = some segs := by
  intro segs
  induction segs with
  | nil => intro fuel _; cases fuel <;> rfl
  | cons s t ih =>
    intro fuel hlen
    cases fuel with
    | zero => simp at hlen
    | succ f =>
      obtain ⟨kind, ref⟩ := s
      have hlent : t.length ≤ f := by simpa using hlen
      have heq : printSegs (⟨kind, ref⟩ :: t)
          = '/' :: (printQuoted kind.data ++ (printRef ref ++ printSegs t)) := by
        cases ref <;> simp [printSegs, printSeg, printRef]
      rw [heq]
      have h0 : parseSegs (f + 1)
          ('/' :: (printQuoted kind.data ++ (printRef ref ++ printSegs t)))
          = (readQuoted (printQuoted kind.data ++ (printRef ref ++ printSegs t))).bind
              (fun kd => (parseSegRef kd.2).bind (fun rf =>
                (parseSegs f rf.2).map (fun sg => ⟨⟨kd.1⟩, rf.1⟩ :: sg))) := rfl
      rw [h0, readQuoted_encode]
      dsimp only [Option.bind]
      rw [parseSegRef_printRef ref (printSegs t) (printSegs_head_not_digit t)]
      dsimp only [Option.bind]
      rw [ih f hlent]
      rw [string_mk_data]
      rfl

theorem parseKeyChars_print (k : Key) : parseKeyChars (printKey k) = some k := by
  obtain ⟨proj, ns, path⟩ := k
  cases ns with
  | none =>
    have heq : printKey ⟨proj, .none, path⟩
        = 'P' :: (printQuoted proj.data ++ printSegs path) := by
      simp [printKey]
    rw [heq]
    have h0 : parseKeyChars ('P' :: (printQuoted proj.data ++ printSegs path))
        = (readQuoted (printQuoted proj.data ++ printSegs path)).bind
            (fun pr =>
              if pr.2.head? = some 'N' then
                (readQuoted pr.2.tail).bind (fun n2 =>
                  (parseSegs n2.2.length n2.2).map
                    (fun segs => ⟨⟨pr.1⟩, some ⟨n2.1⟩, segs⟩))
              else (parseSegs pr.2.length pr.2).map
                (fun segs => ⟨⟨pr.1⟩, .none, segs⟩)) := rfl
    rw [h0, readQuoted_encode]
    dsimp only [Option.bind]
    rw [if_neg (by
      rcases printSegs_shape path with hnil | ⟨r, hr⟩
      · rw [hnil]; simp
      · rw [hr]; simp)]
    rw [parseSegs_encode path _ (len_printSegs path), string_mk_data]
    rfl
  | some nsv =>
    have heq : printKey ⟨proj, some nsv, path⟩
        = 'P' :: (printQuoted proj.data ++ ('N' :: (printQuoted nsv.data ++ printSegs path))) := by
      simp [printKey]
    rw [heq]
    have h0 : parseKeyChars ('P' :: (printQuoted proj.data
        ++ ('N' :: (printQuoted nsv.data ++ printSegs path))))
        = (readQuoted (printQuoted proj.data ++ ('N' :: (printQuoted nsv.data ++ printSegs path)))).bind
            (fun pr =>
              if pr.2.head? = some 'N' then
                (readQuoted pr.2.tail).bind (fun n2 =>
                  (parseSegs n2.2.length n2.2).map
                    (fun segs => ⟨⟨pr.1⟩, some ⟨n2.1⟩, segs⟩))
              else (parseSegs pr.2.length pr.2).map
                (fun segs => ⟨⟨pr.1⟩, .none, segs⟩)) := rfl
    rw [h0, readQuoted_encode]
    dsimp only [Option.bind]
    rw [if_pos (by simp)]
    rw [show (('N' :: (printQuoted nsv.data ++ printSegs path)) : List Char).tail
      = printQuoted nsv.data ++ printSegs path from rfl]
    rw [readQuoted_encode nsv.data (printSegs path)]
    dsimp only [Option.bind]
    rw [parseSegs_encode path _ (len_printSegs path), string_mk_data, string_mk_data]
    rfl

/-- C3: for every constructible PropertyValue of any variant except entity
(equivalently: every value whose encoding is defined), and any
project/namespace pair, decoding the edit value produced by encoding —
`valueFromEditValue (valueToEditValue v p n) p n` — yields a value
structurally equal to `v`.  The `properties.ts` pair is spec-modelled
(§4.1); entities, which are never editable input, are exactly the values on
which encoding is undefined. -/
theorem valueToEditValue_roundTrip :
    ∀ (v : PropertyValue) (project : String) (nspace : Option String) (e : EditValue),
      valueToEditValue v project nspace = some e →
      valueFromEditValue e project nspace = some v := by
  have main := valueToEditValue.induct
    (fun vs project nspace => ∀ es,
      valueToEditValue.valueToEditList vs project nspace = some es →
      valueFromEditValue.valueFromEditList es project nspace = some vs)
    (fun v project nspace => ∀ e,
      valueToEditValue v project nspace = some e →
      valueFromEditValue e project nspace = some v)
  intro v project nspace
  refine main ?_ ?_ ?_ ?_ ?_ ?_ ?_ ?_ ?_ ?_ ?_ ?_ ?_ ?_ ?_ v project nspace
  · intro p n e h
    simp only [valueToEditValue, Option.some.injEq] at h
    subst h
    rfl
  · intro p n b e h
    simp only [valueToEditValue, Option.some.injEq] at h
    subst h
    cases b <;> rfl
  · intro p n i e h
    simp only [valueToEditValue, Option.some.injEq] at h
    subst h
    simp only [valueFromEditValue]
    rw [parseIntChars_print]
    rfl
  · intro p n d e h
    simp only [valueToEditValue, Option.some.injEq] at h
    subst h
    simp only [valueFromEditValue]
    rw [parseJsNumExact_print]
    rfl
  · intro p n s e h
    simp only [valueToEditValue, Option.some.injEq] at h
    subst h
    rfl
  · intro p n s e h
    simp only [valueToEditValue, Option.some.injEq] at h
    subst h
    rfl
  · intro p n s e h
    simp only [valueToEditValue, Option.some.injEq] at h
    subst h
    rfl
  · intro p n lat lng e h
    simp only [valueToEditValue, Option.some.injEq] at h
    subst h
    simp only [valueFromEditValue]
    rw [parseGeo_print]
    rfl
  · intro p n k e h
    simp only [valueToEditValue, Option.some.injEq] at h
    subst h
    simp only [valueFromEditValue]
    rw [show parseKeyChars (keyToString k p n).data = parseKeyChars (printKey k) from rfl,
      parseKeyChars_print]
    rfl
  · intro p n e h
    simp only [valueToEditValue, Option.some.injEq] at h
    subst h
    rfl
  · intro p n vs ih e h
    simp only [valueToEditValue] at h
    cases hlist : valueToEditValue.valueToEditList vs p n with
    | none => rw [hlist] at h; simp at h
    | some es =>
      rw [hlist] at h
      simp only [Option.map_some', Option.some.injEq] at h
      subst h
      simp only [valueFromEditValue]
      rw [ih es hlist]
      rfl
  · intro p n props e h
    simp only [valueToEditValue] at h
    exact absurd h (by simp)
  · intro p n es h
    simp only [valueToEditValue.valueToEditList, Option.some.injEq] at h
    subst h
    rfl
  · intro v t p n e0 es0 hts hv ih2 ih1 es h
    rw [show valueToEditValue.valueToEditList (v :: t) p n
        = (match valueToEditValue v p n, valueToEditValue.valueToEditList t p n with
          | some e, some es => some (e :: es)
          | _, _ => none) from rfl] at h
    rw [hv, hts] at h
    simp only [Option.some.injEq] at h
    subst h
    rw [show valueFromEditValue.valueFromEditList (e0 :: es0) p n
        = (match valueFromEditValue e0 p n, valueFromEditValue.valueFromEditList es0 p n with
          | some v, some vs => some (v :: vs)
          | _, _ => none) from rfl]
    rw [ih2 e0 hv, ih1 es0 hts]
  · intro v t p n hfail ih2 ih1 es h
    rw [show valueToEditValue.valueToEditList (v :: t) p n
        = (match valueToEditValue v p n, valueToEditValue.valueToEditList t p n with
          | some e, some es => some (e :: es)
          | _, _ => none) from rfl] at h
    cases hv : valueToEditValue v p n with
    | none =>
      rw [hv] at h
      cases hts : valueToEditValue.valueToEditList t p n with
      | none => rw [hts] at h; simp at h
      | some es1 => rw [hts] at h; simp at h
    | some e1 =>
      cases hts : valueToEditValue.valueToEditList t p n with
      | none => rw [hv, hts] at h; simp at h
      | some es1 => exact absurd trivial (fun _ => hfail e1 es1 hv hts)

/-- Witness for C3 at an array of string, integer, double and key values. -/
theorem valueToEditValue_roundTrip_witness :
    valueToEditValue editExampleValue "project" .none = some editExampleEdit
    ∧ valueFromEditValue editExampleEdit "project" .none = some editExampleValue :=
  ⟨by rfl,
    valueToEditValue_roundTrip editExampleValue "project" .none editExampleEdit (by rfl)⟩

end DsAdmin

